import Mathlib

/-!
# Verification of the cards-arbitrage comparable-price resolution logic

A shallow embedding of the decision logic of `cards_cert_arbitrage.py`:
the money / grade text parsers, the PSA certificate resolver
(`_psa_cert_info`, `_fetch_psa_comp`), the comparable selector and margin
computation inside `scan_selected_categories`, and the orchestration that
builds and sorts the output table.

Modelling conventions:
* Python `str` values scanned by regexes are `List Char`; the regexes of the
  source are hand-compiled into deterministic matchers (each regex used by
  the program is free of backtracking ambiguity: alternatives and greedy
  repetitions never overlap on their follow sets, which is argued in the
  doc comment of each matcher).
* Python floats are modelled as `ℚ` (the numeric claims under study do not
  hinge on binary floating point representation).
* Network fetches and BeautifulSoup DOM queries are oracles provided in a
  `NetEnv`: a certificate-page fetch yields `Option CertPageData`
  (`none` models every per-host failure the source skips past: TLS errors,
  HTTP errors — including the 403/Playwright path failing — and empty
  HTML), while the sales-history (APR) fetch yields
  `Except NetErr AprPageData` because the source does not catch its
  failures inside `_fetch_psa_comp`.
-/

/-! ## Character classes (the regex atoms of the source) -/

/-- The regex class `[0-9]` / `\d`. -/
def isDigitCh (c : Char) : Bool := decide (48 ≤ c.toNat ∧ c.toNat ≤ 57)

/-- The regex class `\s`, restricted to its ASCII members
`' ' '\t' '\n' '\r' '\x0b' '\x0c'` (the texts under study are ASCII). -/
def isPySpaceCh (c : Char) : Bool :=
  decide (c.toNat = 32 ∨ c.toNat = 9 ∨ c.toNat = 10 ∨ c.toNat = 13 ∨
    c.toNat = 11 ∨ c.toNat = 12)

/-- The regex class `[A-Z]`. -/
def isUpperCh (c : Char) : Bool := decide (65 ≤ c.toNat ∧ c.toNat ≤ 90)

/-- The regex class `[a-z]`. -/
def isLowerCh (c : Char) : Bool := decide (97 ≤ c.toNat ∧ c.toNat ≤ 122)

/-- The regex class `[A-Z\s\-]` of the `GRADE :` pattern (`-` is 45). -/
def isGradeClassCh (c : Char) : Bool :=
  isUpperCh c || isPySpaceCh c || decide (c.toNat = 45)

/-- The regex class `[\$€£]` of `_clean_money` (`$` 36, `€` 8364, `£` 163). -/
def isMoneySymCh (c : Char) : Bool :=
  decide (c.toNat = 36 ∨ c.toNat = 8364 ∨ c.toNat = 163)

/-- The regex atom `\$` of the APR price scan in `_fetch_psa_comp`. -/
def isDollarCh (c : Char) : Bool := decide (c.toNat = 36)

/-! ## Matching primitives -/

/-- Greedy `\d{1,n}` at the head: the matched digits and the remainder. -/
def digitsUpTo : ℕ → List Char → List Char × List Char
  | 0, s => ([], s)
  | _ + 1, [] => ([], [])
  | n + 1, c :: t =>
    if isDigitCh c then
      let p := digitsUpTo n t
      (c :: p.1, p.2)
    else ([], c :: t)

/-- Greedy `(?:,[0-9]{3})*` at the head. -/
def commaGroups : List Char → List Char × List Char
  | c :: a :: b :: d :: t =>
    if c = ',' ∧ isDigitCh a ∧ isDigitCh b ∧ isDigitCh d then
      let p := commaGroups t
      (c :: a :: b :: d :: p.1, p.2)
    else ([], c :: a :: b :: d :: t)
  | s => ([], s)

/-- `(?:\.[0-9]{2})?` at the head. -/
def fracOpt2 : List Char → List Char × List Char
  | c :: a :: b :: t =>
    if c = '.' ∧ isDigitCh a ∧ isDigitCh b then ([c, a, b], t) else ([], c :: a :: b :: t)
  | s => ([], s)

/-- `(?:\.\d)?` at the head. -/
def fracOpt1 : List Char → List Char × List Char
  | c :: a :: t =>
    if c = '.' ∧ isDigitCh a then ([c, a], t) else ([], c :: a :: t)
  | s => ([], s)

/-- `re.search` position scan: try the matcher at each position, leftmost
success wins (matches Python's scan order; every matcher here consumes at
least one character, so the final empty position is the plain failure). -/
def searchWith {α : Type} (m : List Char → Option α) : List Char → Option α
  | [] => m []
  | c :: t =>
    match m (c :: t) with
    | some r => some r
    | none => searchWith m t

/-- Numeric value of a digit string (`most-significant first`). -/
def digitsVal (ds : List Char) : ℕ :=
  ds.foldl (fun a c => 10 * a + (c.toNat - 48)) 0

/-- Python `float` restricted to the shapes the regex groups can produce:
digits, optionally followed by `.` and digits. Anything else is a
conversion failure (`None` through the source's `try/except`). -/
def parseDecimal (s : List Char) : Option ℚ :=
  let ip := s.takeWhile isDigitCh
  let rest := s.dropWhile isDigitCh
  if ip.isEmpty then none
  else
    match rest with
    | [] => some (digitsVal ip)
    | c :: fs =>
      if c = '.' ∧ fs ≠ [] ∧ fs.all isDigitCh then
        some ((digitsVal ip : ℚ) + (digitsVal fs : ℚ) / (10 : ℚ) ^ fs.length)
      else none

/-! ## The money regex of `_clean_money` and the APR price scan

Source regex: `[\$€£]\s*([0-9]{1,3}(?:,[0-9]{3})*(?:\.[0-9]{2})?|[0-9]+(?:\.[0-9]{2})?)`.
Both alternatives require a leading digit, so the second is tried exactly
when the first fails on a non-digit; the greedy pieces never backtrack
because each repetition's follow set (`,`, `.`, end) is disjoint from its
own first set (digits). The matcher returns the capture group and the
remainder after the whole match. -/

/-- First alternative `[0-9]{1,3}(?:,[0-9]{3})*(?:\.[0-9]{2})?`. -/
def moneyBranch1 (s : List Char) : Option (List Char × List Char) :=
  match s with
  | c :: _ =>
    if isDigitCh c then
      let p1 := digitsUpTo 3 s
      let p2 := commaGroups p1.2
      let p3 := fracOpt2 p2.2
      some (p1.1 ++ p2.1 ++ p3.1, p3.2)
    else none
  | [] => none

/-- Second alternative `[0-9]+(?:\.[0-9]{2})?`. -/
def moneyBranch2 (s : List Char) : Option (List Char × List Char) :=
  match s with
  | c :: _ =>
    if isDigitCh c then
      let d := s.takeWhile isDigitCh
      let p3 := fracOpt2 (s.dropWhile isDigitCh)
      some (d ++ p3.1, p3.2)
    else none
  | [] => none

/-- The capture group after the currency symbol: ordered alternation. -/
def moneyGroupAt (s : List Char) : Option (List Char × List Char) :=
  match moneyBranch1 s with
  | some g => some g
  | none => moneyBranch2 s

/-- One match attempt of the money regex at the current position, for a
given currency-symbol class (`[\$€£]` in `_clean_money`, `\$` in the APR
price scan). -/
def moneyMatchAt (sym : Char → Bool) (s : List Char) : Option (List Char × List Char) :=
  match s with
  | c :: t => if sym c then moneyGroupAt (t.dropWhile isPySpaceCh) else none
  | [] => none

/-- `m.group(1).replace(",", "")` followed by `float(...)`, with the
source's `try/except` returning `None` on conversion failure. -/
def parseMoneyGroup (g : List Char) : Option ℚ :=
  parseDecimal (g.filter (fun c => decide (c ≠ ',')))

/-- `_clean_money` (source lines 194-206): `None` on falsy input, else the
first money-regex match converted to a number. -/
def _clean_money (txt : List Char) : Option ℚ :=
  if txt.isEmpty then none
  else
    match searchWith (moneyMatchAt isMoneySymCh) txt with
    | none => none
    | some m => parseMoneyGroup m.1

/-- `re.findall` of the `\$`-anchored money regex: scan left to right,
emitting each capture group and resuming after the end of the whole match.
Fuel equals the input length; every match consumes at least the `$`, so
fuel never runs out before the scan completes. -/
def findAllDollarGo : ℕ → List Char → List (List Char)
  | 0, _ => []
  | _ + 1, [] => []
  | fuel + 1, c :: t =>
    match moneyMatchAt isDollarCh (c :: t) with
    | some m => m.1 :: findAllDollarGo fuel m.2
    | none => findAllDollarGo fuel t

/-- The raw `re.findall(r"\$\s*(...)", text)` of `_fetch_psa_comp`. -/
def findAllDollar (s : List Char) : List (List Char) :=
  findAllDollarGo s.length s

/-- A thousands-grouped tail: each group rendered as `,` plus its digits
(used to state facts about the money regex). -/
def withCommas : List (List Char) → List Char
  | [] => []
  | g :: gs => ',' :: (g ++ withCommas gs)

/-- The same groups with the grouping separators removed. -/
def flatGroups : List (List Char) → List Char
  | [] => []
  | g :: gs => g ++ flatGroups gs

/-- Value of an optional fractional part `.d...d`. -/
def fracVal : List Char → ℚ
  | c :: fs => if c = '.' then (digitsVal fs : ℚ) / (10 : ℚ) ^ fs.length else 0
  | [] => 0

/-! ## Grade regexes

`_scrape_cardshq_product` (lines 317-325) first searches the uppercased
page text for `GRADE\s*:\s*([A-Z\s\-]*\d{1,2}(?:\.\d)?)`, and only if that
fails for `PSA\s*(\d{1,2}(?:\.\d)?)`. `_grade_num_from_text` then searches
the grade text for `(\d{1,2}(?:\.\d)?)` and truncates with `int(float(g))`. -/

/-- The part of the `GRADE` pattern behind `\s*:\s*`: the capture group
`[A-Z\s\-]*\d{1,2}(?:\.\d)?`. The class excludes digits, so the greedy
class star stops exactly at the first digit. -/
def gradeLabelGroup (s : List Char) : Option (List Char) :=
  let desc := s.takeWhile isGradeClassCh
  let r4 := s.dropWhile isGradeClassCh
  match r4 with
  | c :: _ =>
    if isDigitCh c then
      let p1 := digitsUpTo 2 r4
      let p2 := fracOpt1 p1.2
      some (desc ++ p1.1 ++ p2.1)
    else none
  | [] => none

/-- One attempt of `GRADE\s*:\s*([A-Z\s\-]*\d{1,2}(?:\.\d)?)`. -/
def gradeLabelMatchAt (s : List Char) : Option (List Char) :=
  match s with
  | c1 :: c2 :: c3 :: c4 :: c5 :: r =>
    if c1 = 'G' ∧ c2 = 'R' ∧ c3 = 'A' ∧ c4 = 'D' ∧ c5 = 'E' then
      match r.dropWhile isPySpaceCh with
      | c :: r2 => if c = ':' then gradeLabelGroup (r2.dropWhile isPySpaceCh) else none
      | [] => none
    else none
  | _ => none

/-- The digit part `\d{1,2}(?:\.\d)?` at the head. -/
def gradeDigitsMatchAt (s : List Char) : Option (List Char) :=
  match s with
  | c :: _ =>
    if isDigitCh c then
      let p1 := digitsUpTo 2 s
      let p2 := fracOpt1 p1.2
      some (p1.1 ++ p2.1)
    else none
  | [] => none

/-- One attempt of `PSA\s*(\d{1,2}(?:\.\d)?)`. -/
def psaGradeMatchAt (s : List Char) : Option (List Char) :=
  match s with
  | c1 :: c2 :: c3 :: r =>
    if c1 = 'P' ∧ c2 = 'S' ∧ c3 = 'A' then
      gradeDigitsMatchAt (r.dropWhile isPySpaceCh)
    else none
  | _ => none

/-! ## ASCII case mapping (for Python `str.title` / `str.upper`)

Implemented by an explicit letter table so that its effect on character
classes is transparent to the proofs. -/

/-- The 26 ASCII letter pairs (upper, lower). -/
def asciiCasePairs : List (Char × Char) :=
  [('A','a'), ('B','b'), ('C','c'), ('D','d'), ('E','e'), ('F','f'), ('G','g'),
   ('H','h'), ('I','i'), ('J','j'), ('K','k'), ('L','l'), ('M','m'), ('N','n'),
   ('O','o'), ('P','p'), ('Q','q'), ('R','r'), ('S','s'), ('T','t'), ('U','u'),
   ('V','v'), ('W','w'), ('X','x'), ('Y','y'), ('Z','z')]

/-- Lowercase an ASCII letter (identity elsewhere). -/
def asciiLowerCh (c : Char) : Char :=
  match asciiCasePairs.find? (fun p => p.1 = c) with
  | some p => p.2
  | none => c

/-- Uppercase an ASCII letter (identity elsewhere). -/
def asciiUpperCh (c : Char) : Char :=
  match asciiCasePairs.find? (fun p => p.2 = c) with
  | some p => p.1
  | none => c

/-- Python `str.upper()` for ASCII text. -/
def pyUpper (s : List Char) : List Char := s.map asciiUpperCh

/-- Python `str.title()` for ASCII text: a letter is uppercased when the
previous character is not a letter, lowercased otherwise. -/
def pyTitleGo : Bool → List Char → List Char
  | _, [] => []
  | prevAlpha, c :: t =>
    if isUpperCh c || isLowerCh c then
      (if prevAlpha then asciiLowerCh c else asciiUpperCh c) :: pyTitleGo true t
    else
      c :: pyTitleGo false t

/-- Python `str.title()` for ASCII text. -/
def pyTitle (s : List Char) : List Char := pyTitleGo false s

/-- `_grade_num_from_text` (source lines 209-217): first
`\d{1,2}(?:\.\d)?` token of the grade text, truncated by `int(float(g))`;
`None` on falsy input, no match, or conversion failure. -/
def _grade_num_from_text (grade_text : Option (List Char)) : Option ℕ :=
  match grade_text with
  | none => none
  | some t =>
    if t.isEmpty then none
    else
      match searchWith gradeDigitsMatchAt t with
      | none => none
      | some g =>
        match parseDecimal g with
        | none => none
        | some q => some (Rat.floor q).toNat

/-- The grade-text extraction of `_scrape_cardshq_product` (lines 317-324)
over the uppercased page text `body_up`: the `GRADE :` label pattern is
tried first (its group goes through `.title()`), the `PSA <n>` pattern
second (its group is prefixed with `"PSA "`). -/
def extract_grade_text (body_up : List Char) : Option (List Char) :=
  match searchWith gradeLabelMatchAt body_up with
  | some g => some (pyTitle g)
  | none =>
    match searchWith psaGradeMatchAt body_up with
    | some g => some ('P' :: 'S' :: 'A' :: ' ' :: g)
    | none => none

/-- `grade_num = _grade_num_from_text(grade_text)` (line 325). -/
def extract_grade_num (body_up : List Char) : Option ℕ :=
  _grade_num_from_text (extract_grade_text body_up)

/-! ## PSA certificate resolver (`_psa_cert_info`, `_fetch_psa_comp`) -/

/-- Failure kinds distinguished by the orchestrator's `except` clause. -/
inductive NetErr where
  | http (status : ℕ)
  | other
deriving DecidableEq

/-- What parsing a successfully fetched certificate page yields:
`_extract_psa_estimate_from_cert_soup` and `_extract_apr_url_from_cert_soup`
results (both are DOM queries, abstracted as page attributes). -/
structure CertPageData where
  psa_estimate : Option ℚ
  apr_link : Option String

/-- A successfully fetched sales-history (APR) page:
`soup.get_text(" ", strip=True)` and the result of
`_parse_most_recent_by_grade_from_apr_soup` for each grade (a DOM/regex
query over the same page, abstracted as a page attribute). -/
structure AprPageData where
  text : List Char
  mostRecentByGrade : ℕ → Option ℚ

/-- `StoreItem` (source lines 172-180). -/
structure StoreItem where
  source : String
  url : String
  card_name : String
  price : Option ℚ
  psa_grade_text : Option String
  psa_grade_num : Option ℕ
  psa_cert : Option String

/-- The oracles standing for the network and DOM layers. -/
structure NetEnv where
  /-- Per-host certificate-page fetch+parse. `none` models every failure
  `_psa_cert_info` skips past to the next host: TLS errors, HTTP errors
  (including a failing 403/Playwright retry) and empty HTML. -/
  certFetch : String → Option CertPageData
  /-- The APR fetch. Its failures are exceptions: `_fetch_psa_comp` does
  not catch them. -/
  aprFetch : String → Except NetErr AprPageData
  /-- The Playwright APR-table fallback (`_apr_prices_by_grade_playwright`
  plus the key-variant lookup): the most-recent price it finds for a
  grade, if any. -/
  pwApr : String → ℕ → Option ℚ
  /-- `_discover_product_urls_for_category`: product URLs of a category. -/
  discover : String → List String
  /-- `_scrape_cardshq_product`: the parsed listing of a product page. -/
  scrape : String → Option StoreItem

/-- `PsaComp` (source lines 183-190). -/
structure PsaComp where
  cert_url : String
  apr_url : Option String
  most_recent_for_grade : Option ℚ
  median_recent_sales : Option ℚ
  psa_estimate : Option ℚ
  last_n_prices : List ℚ
deriving DecidableEq

/-- The two PSA hosts (source line 47). -/
def PSA_HOSTS : List String := ["https://www.psacard.com", "https://psacard.com"]

/-- `f"{host}/cert/{cert}/psa"` (source line 549). -/
def psaCertUrl (host cert : String) : String := host ++ "/cert/" ++ cert ++ "/psa"

/-- The host loop of `_psa_cert_info` (lines 548-603): `last` carries
`last_cert_url`, set to the current host's URL before each attempt. On the
first successful fetch the parsed page is returned; when the hosts are
exhausted the source returns `last_cert_url or f"{PSA_HOSTS[0]}/cert/{cert}/psa"`
with no APR link and no estimate (the URLs are never empty strings, so
Python's `or` is `Option.getD`). -/
def psaCertInfoGo (cert : String) (fetch : String → Option CertPageData) :
    List String → Option String → String × Option String × Option ℚ
  | [], last => (last.getD (psaCertUrl "https://www.psacard.com" cert), none, none)
  | host :: rest, _ =>
    let cert_url := psaCertUrl host cert
    match fetch cert_url with
    | some page => (cert_url, page.apr_link, page.psa_estimate)
    | none => psaCertInfoGo cert fetch rest (some cert_url)

/-- `_psa_cert_info` (source lines 529-606): returns
`(cert_url, apr_url, psa_estimate)`. -/
def _psa_cert_info (cert : String) (fetch : String → Option CertPageData) :
    String × Option String × Option ℚ :=
  psaCertInfoGo cert fetch PSA_HOSTS none

/-- `_fetch_psa_comp` (source lines 655-740). The APR fetch (line 681) is
not guarded by any `try`, so its failure propagates as `Except.error`. -/
def _fetch_psa_comp (env : NetEnv) (cert : String) (grade_num : Option ℕ)
    (use_playwright_apr : Bool) : Except NetErr PsaComp :=
  let info := _psa_cert_info cert env.certFetch
  let cert_url := info.1
  let apr_url := info.2.1
  let psa_estimate := info.2.2
  match apr_url with
  | none => .ok ⟨cert_url, none, none, none, psa_estimate, []⟩
  | some u =>
    match env.aprFetch u with
    | .error e => .error e
    | .ok page =>
      let mr0 : Option ℚ :=
        match grade_num with
        | some g => page.mostRecentByGrade g
        | none => none
      let most_recent_for_grade : Option ℚ :=
        match mr0, use_playwright_apr, grade_num with
        | none, true, some g => env.pwApr u g
        | r, _, _ => r
      let text_prices := findAllDollar page.text
      let last_n_prices := (text_prices.take 25).filterMap parseMoneyGroup
      let median_recent_sales : Option ℚ :=
        if last_n_prices.isEmpty then none
        else (List.insertionSort (fun a b : ℚ => a ≤ b) last_n_prices)[last_n_prices.length / 2]?
      .ok ⟨cert_url, some u, most_recent_for_grade, median_recent_sales,
        psa_estimate, last_n_prices⟩

/-! ## The orchestrator `scan_selected_categories` (source lines 744-925) -/

/-- One output-table row (the dict literal of lines 829-846 / 895-914). -/
structure OutputRow where
  category : String
  store : String
  card_name : String
  store_price : Option ℚ
  psa_grade : Option String
  psa_cert : Option String
  psa_cert_url : Option String
  psa_apr_url : Option String
  psa_estimate_cert_page : Option ℚ
  apr_most_recent_grade : Option ℚ
  apr_median_recent_all : Option ℚ
  expected_net_est : Option ℚ
  roi_pct_est : Option ℚ
  store_url : String
deriving DecidableEq

/-- First non-`None` of a list of optional values, as the source's
`for v in (...): if v is not None: ...; break` loop. -/
def firstSome : List (Option ℚ) → Option ℚ
  | [] => none
  | v :: rest =>
    match v with
    | some x => some x
    | none => firstSome rest

/-- The comparable selector (lines 884-887 and 950-958): first present of
most-recent-for-grade, PSA estimate, median of recent sales. -/
def chooseCompValue (comp : PsaComp) : Option ℚ :=
  firstSome [comp.most_recent_for_grade, comp.psa_estimate, comp.median_recent_sales]

/-- Python `round` to an integer: round half to even over exact values. -/
def roundHalfEven (x : ℚ) : ℤ :=
  let f := Rat.floor x
  let r := x - (f : ℚ)
  if r < 1/2 then f
  else if r > 1/2 then f + 1
  else if f % 2 = 0 then f else f + 1

/-- Python `round(x, 2)` over exact values. -/
def pyRound2 (x : ℚ) : ℚ := (roundHalfEven (x * 100) : ℚ) / 100

/-- Lines 889-893: the `expected_net` / `roi_pct` computation, guarded by
`comp_value is not None and it.price and it.price > 0` (Python truthiness:
a price of `0` is falsy, hence the `p ≠ 0` conjunct). Both values are the
full-precision results; rounding happens only in the row literal. -/
def computeMargins (comp_value : Option ℚ) (price : Option ℚ) (fee_rate ship_out : ℚ) :
    Option ℚ × Option ℚ :=
  match comp_value, price with
  | some cv, some p =>
    if p ≠ 0 ∧ 0 < p then
      let expected_net := cv * (1 - fee_rate) - ship_out
      (some expected_net, some ((expected_net - p) / p * 100))
    else (none, none)
  | _, _ => (none, none)

/-- The row construction of lines 870-914 from a listing and the resolver
outcome (`comp = None` when skipped after an HTTP error, or for the
cert-less branch of lines 823-847, whose literal row coincides with this
one because there `it.psa_cert` is `None`). Displayed margins are rounded
to two decimals (lines 908-911). -/
def buildRow (label : String) (it : StoreItem) (comp : Option PsaComp)
    (fee_rate ship_out : ℚ) : OutputRow :=
  let comp_value : Option ℚ :=
    match comp with
    | some c => chooseCompValue c
    | none => none
  let margins := computeMargins comp_value it.price fee_rate ship_out
  { category := label
    store := it.source
    card_name := it.card_name
    store_price := it.price
    psa_grade := it.psa_grade_text
    psa_cert := it.psa_cert
    psa_cert_url := comp.map (fun c => c.cert_url)
    psa_apr_url := comp.bind (fun c => c.apr_url)
    psa_estimate_cert_page := comp.bind (fun c => c.psa_estimate)
    apr_most_recent_grade := comp.bind (fun c => c.most_recent_for_grade)
    apr_median_recent_all := comp.bind (fun c => c.median_recent_sales)
    expected_net_est := margins.1.map pyRound2
    roi_pct_est := margins.2.map pyRound2
    store_url := it.url }

/-- The per-listing body of lines 819-914: cert-less listings keep a
store-only row; for the rest the resolver runs, HTTP errors are caught and
degrade to `comp = None`, any other exception propagates. -/
def processItem (env : NetEnv) (fee_rate ship_out : ℚ) (use_playwright_apr : Bool)
    (label : String) (it : StoreItem) : Except NetErr OutputRow :=
  match it.psa_cert with
  | none => .ok (buildRow label it none fee_rate ship_out)
  | some cert =>
    match _fetch_psa_comp env cert it.psa_grade_num use_playwright_apr with
    | .ok comp => .ok (buildRow label it (some comp) fee_rate ship_out)
    | .error (.http _) => .ok (buildRow label it none fee_rate ship_out)
    | .error .other => .error .other

/-- `needle` is a prefix of `hay`. -/
def startsWithSeq : List Char → List Char → Bool
  | [], _ => true
  | _ :: _, [] => false
  | a :: as, b :: bs => decide (a = b) && startsWithSeq as bs

/-- Python substring membership `needle in hay`. -/
def containsSeq (needle : List Char) : List Char → Bool
  | [] => needle.isEmpty
  | c :: t => startsWithSeq needle (c :: t) || containsSeq needle t

/-- Lines 797-802: a listing counts as PSA-like when it has a cert, a
numeric grade, or a ` PSA ` token in the padded uppercased name/grade
blob. -/
def is_psa_like (it : StoreItem) : Bool :=
  it.psa_cert.isSome || it.psa_grade_num.isSome ||
    containsSeq " PSA ".toList
      (' ' :: pyUpper (it.card_name ++ " " ++ (it.psa_grade_text.getD "")).toList ++ [' '])

/-- `if limit_per_category and len(found_items) >= limit_per_category`
(line 805): Python truthiness makes a limit of `0` (or `None`) no limit. -/
def limitReached (limit : Option ℕ) (n : ℕ) : Bool :=
  match limit with
  | some l => if l = 0 then false else decide (l ≤ n)
  | none => false

/-- The product loop of lines 784-808: scrape each product URL, keep the
PSA-like ones, stop once the per-category limit is reached. -/
def collectItems (scrape : String → Option StoreItem) (limit : Option ℕ) :
    List String → List StoreItem → List StoreItem
  | [], acc => acc
  | u :: us, acc =>
    match scrape u with
    | none => collectItems scrape limit us acc
    | some it =>
      if is_psa_like it then
        let acc2 := acc ++ [it]
        if limitReached limit acc2.length then acc2
        else collectItems scrape limit us acc2
      else collectItems scrape limit us acc

/-- The per-category row loop of lines 819-914. -/
def rowsForItems (env : NetEnv) (fee_rate ship_out : ℚ) (use_playwright_apr : Bool)
    (label : String) : List StoreItem → Except NetErr (List OutputRow)
  | [] => .ok []
  | it :: rest => do
    let row ← processItem env fee_rate ship_out use_playwright_apr label it
    let more ← rowsForItems env fee_rate ship_out use_playwright_apr label rest
    .ok (row :: more)

/-- `CARDSHQ_CATEGORY_URLS` (source lines 34-40). -/
def CARDSHQ_CATEGORY_URLS : List (String × String) :=
  [("Baseball", "https://www.cardshq.com/collections/baseball-cards?page=1"),
   ("Basketball (Graded)", "https://www.cardshq.com/collections/basketball-graded?page=1"),
   ("Football", "https://www.cardshq.com/collections/football-cards?page=1"),
   ("Soccer", "https://www.cardshq.com/collections/soccer-cards?page=1"),
   ("Pokemon", "https://www.cardshq.com/collections/pokemon-cards?page=1")]

/-- Dictionary lookup `CARDSHQ_CATEGORY_URLS[label]`. -/
def lookupCategory (label : String) : Option String :=
  (CARDSHQ_CATEGORY_URLS.find? (fun p => p.1 = label)).map (fun p => p.2)

/-- Lines 764-767: keep only the labels present in the fixed mapping
(dict semantics: first-insertion order, duplicates collapse; the repeated
assignment writes the same URL, so it is modelled as a skip). -/
def selectedCategoriesGo : List String → List (String × String) → List (String × String)
  | [], acc => acc
  | label :: rest, acc =>
    match lookupCategory label with
    | some url =>
      if acc.any (fun p => p.1 = label) then selectedCategoriesGo rest acc
      else selectedCategoriesGo rest (acc ++ [(label, url)])
    | none => selectedCategoriesGo rest acc

/-- The `selected` dict of lines 764-767. -/
def selectedCategories (categories : List String) : List (String × String) :=
  selectedCategoriesGo categories []

/-- The category loop of lines 770-914. -/
def scanCategories (env : NetEnv) (fee_rate ship_out : ℚ) (limit : Option ℕ)
    (use_playwright_apr : Bool) : List (String × String) → Except NetErr (List OutputRow)
  | [] => .ok []
  | (label, url) :: rest => do
    let product_urls := env.discover url
    let found_items := collectItems env.scrape limit product_urls []
    let rows ← rowsForItems env fee_rate ship_out use_playwright_apr label found_items
    let more ← scanCategories env fee_rate ship_out limit use_playwright_apr rest
    .ok (rows ++ more)

/-- The sort key of lines 917-922: descending by displayed ROI, rows with
an absent ROI last. -/
def roiOrder (r1 r2 : OutputRow) : Prop :=
  match r1.roi_pct_est, r2.roi_pct_est with
  | some a, some b => b ≤ a
  | some _, none => True
  | none, some _ => False
  | none, none => True

instance : DecidableRel roiOrder := fun r1 r2 => by
  unfold roiOrder
  rcases r1.roi_pct_est with _ | a <;> rcases r2.roi_pct_est with _ | b <;> infer_instance

instance : IsTotal OutputRow roiOrder where
  total r1 r2 := by
    unfold roiOrder
    rcases r1.roi_pct_est with _ | a <;> rcases r2.roi_pct_est with _ | b <;> simp
    exact le_total b a

instance : IsTrans OutputRow roiOrder where
  trans r1 r2 r3 := by
    unfold roiOrder
    rcases r1.roi_pct_est with _ | a <;> rcases r2.roi_pct_est with _ | b <;>
      rcases r3.roi_pct_est with _ | c <;> simp
    exact fun h1 h2 => le_trans h2 h1

/-- `df.sort_values(by=["ROI % (est)"], ascending=False, na_position="last")`:
a comparison sort by the ROI key (pandas does not promise an order among
equal keys; the model picks a stable sort). -/
def sortRows (rows : List OutputRow) : List OutputRow :=
  List.insertionSort roiOrder rows

/-- `scan_selected_categories` (lines 744-925): filter labels, run the
category loop, and sort the non-empty result table by ROI. -/
def scan_selected_categories (env : NetEnv) (categories : List String)
    (limit_per_category : Option ℕ) (fee_rate ship_out : ℚ)
    (use_playwright_apr : Bool) : Except NetErr (List OutputRow) :=
  (scanCategories env fee_rate ship_out limit_per_category use_playwright_apr
      (selectedCategories categories)).map
    (fun rows => if rows.isEmpty then rows else sortRows rows)

/-- `test_psa_cert` (lines 928-968): the resolver plus the same selector
loop; returns the bundle and the chosen value. -/
def test_psa_cert (env : NetEnv) (cert : String) (grade_num : Option ℕ)
    (use_playwright_apr : Bool) : Except NetErr (PsaComp × Option ℚ) :=
  match _fetch_psa_comp env cert grade_num use_playwright_apr with
  | .error e => .error e
  | .ok comp =>
    .ok (comp, firstSome [comp.most_recent_for_grade, comp.psa_estimate,
      comp.median_recent_sales])

/-! ## Concrete oracle instances used by witnesses -/

/-- An inert environment: every fetch fails. -/
def failEnv : NetEnv :=
  ⟨fun _ => none, fun _ => .error .other, fun _ _ => none, fun _ => [], fun _ => none⟩

/-- A certificate page carrying only a PSA estimate of 100. -/
def estimateOnlyEnv : NetEnv :=
  { failEnv with
    certFetch := fun u =>
      if u = psaCertUrl "https://www.psacard.com" "111" then
        some ⟨some 100, none⟩
      else none }

/-- A listing with certificate `111`, grade 10 and price 60. -/
def sampleItem : StoreItem :=
  ⟨"cardshq.com", "https://www.cardshq.com/products/x", "Card PSA 10",
    some 60, some "PSA 10", some 10, some "111"⟩

/-- A certificate page with an estimate and a sales-history link whose
fetch fails with an HTTP 500. -/
def aprFailEnv : NetEnv :=
  { failEnv with
    certFetch := fun u =>
      if u = psaCertUrl "https://www.psacard.com" "222" then
        some ⟨some 50, some "https://www.psacard.com/auctionprices/x"⟩
      else none,
    aprFetch := fun _ => .error (.http 500) }

/-- A certificate page with a sales-history page holding three dollar
amounts. -/
def aprOkEnv : NetEnv :=
  { failEnv with
    certFetch := fun u =>
      if u = psaCertUrl "https://www.psacard.com" "333" then
        some ⟨none, some "https://www.psacard.com/auctionprices/y"⟩
      else none,
    aprFetch := fun u =>
      if u = "https://www.psacard.com/auctionprices/y" then
        .ok ⟨"sold $7 and $5 and $6".toList, fun _ => none⟩
      else .error .other }

/-- A store with one discoverable product: a cert-less PSA-graded listing. -/
def oneListingEnv : NetEnv :=
  { failEnv with
    discover := fun u =>
      if u = "https://www.cardshq.com/collections/baseball-cards?page=1" then
        ["https://www.cardshq.com/products/p1"]
      else [],
    scrape := fun u =>
      if u = "https://www.cardshq.com/products/p1" then
        some ⟨"cardshq.com", u, "Star Card PSA 9", some 40, some "PSA 9", some 9, none⟩
      else none }

/-! ## General lemmas -/

theorem searchWith_of_match {α : Type} (m : List Char → Option α) (s : List Char)
    {r : α} (h : m s = some r) : searchWith m s = some r := by
  cases s with
  | nil => simpa [searchWith] using h
  | cons c t => simp [searchWith, h]

theorem searchWith_skip_head {α : Type} (m : List Char → Option α) (trig : Char → Bool)
    (hm : ∀ c t, trig c = false → m (c :: t) = none) :
    ∀ pre rest, (∀ c ∈ pre, trig c = false) →
      searchWith m (pre ++ rest) = searchWith m rest := by
  intro pre
  induction pre with
  | nil => intro rest _; rfl
  | cons c p ih =>
    intro rest hpre
    have hc : trig c = false := hpre c (by simp)
    have : m (c :: (p ++ rest)) = none := hm c (p ++ rest) hc
    simpa [searchWith, this] using ih rest (fun a ha => hpre a (by simp [ha]))

theorem searchWith_none {α : Type} (m : List Char → Option α) (trig : Char → Bool)
    (hm : ∀ c t, trig c = false → m (c :: t) = none) (hnil : m [] = none) :
    ∀ l, (∀ c ∈ l, trig c = false) → searchWith m l = none := by
  intro l hl
  have := searchWith_skip_head m trig hm l [] hl
  simpa [searchWith, hnil] using this

/-! ## Claim C1 — comparable selector priority -/

/-- C1: for every bundle the selector returns the first present value in
the order most-recent-for-grade, valuation estimate, median; it is absent
exactly when all three are absent; and `test_psa_cert` chooses exactly
this value. In particular a present most-recent-for-grade always wins. -/
theorem comparable_selector_priority :
    (∀ comp : PsaComp,
      (∀ v, comp.most_recent_for_grade = some v → chooseCompValue comp = some v) ∧
      (comp.most_recent_for_grade = none →
        ∀ v, comp.psa_estimate = some v → chooseCompValue comp = some v) ∧
      (comp.most_recent_for_grade = none → comp.psa_estimate = none →
        chooseCompValue comp = comp.median_recent_sales) ∧
      (chooseCompValue comp = none ↔
        comp.most_recent_for_grade = none ∧ comp.psa_estimate = none ∧
          comp.median_recent_sales = none)) ∧
    (∀ env cert g pw comp v, test_psa_cert env cert g pw = Except.ok (comp, v) →
      v = chooseCompValue comp) := by
  constructor
  · intro comp
    refine ⟨?_, ?_, ?_, ?_⟩
    · intro v hv
      simp [chooseCompValue, firstSome, hv]
    · intro h0 v hv
      simp [chooseCompValue, firstSome, h0, hv]
    · intro h0 h1
      rcases hm : comp.median_recent_sales with _ | m <;>
        simp [chooseCompValue, firstSome, h0, h1, hm]
    · constructor
      · intro h
        rcases h0 : comp.most_recent_for_grade with _ | a <;>
          rcases h1 : comp.psa_estimate with _ | b <;>
          rcases h2 : comp.median_recent_sales with _ | c <;>
          simp_all [chooseCompValue, firstSome]
      · rintro ⟨h0, h1, h2⟩
        simp [chooseCompValue, firstSome, h0, h1, h2]
  · intro env cert g pw comp v h
    unfold test_psa_cert at h
    rcases hf : _fetch_psa_comp env cert g pw with e | c
    · rw [hf] at h; cases h
    · rw [hf] at h
      injection h with h
      injection h with h1 h2
      subst h1
      exact h2.symm

/-- C1 witness: a bundle where all three signals are present and differ
still selects the most-recent-for-grade value. -/
theorem comparable_selector_priority_witness :
    chooseCompValue ⟨"u", none, some 200, some 50, some 100, []⟩ = some 200 :=
  (comparable_selector_priority.1 ⟨"u", none, some 200, some 50, some 100, []⟩).1 200 rfl

/-! ## Claim C2 — all certificate hosts failing -/

/-- C2 counterexample: with both hosts failing, the bundle's cert_url is
the second (last) host's canonical URL, not the first host's as claimed. -/
theorem cert_resolver_all_fail_counterexample :
    (_psa_cert_info "99999999" (fun _ => none)).1 = "https://psacard.com/cert/99999999/psa" ∧
    (_psa_cert_info "99999999" (fun _ => none)).1 ≠ "https://www.psacard.com/cert/99999999/psa" := by
  constructor
  · with_unfolding_all rfl
  · decide

/-- C2 amended: if every host fails the certificate fetch (with a failure
of the kind the resolver catches), the resolver returns — without raising —
a triple whose cert_url is the LAST host's canonical URL and whose
sales-history URL and estimate are absent. -/
theorem cert_resolver_all_fail (cert : String) (fetch : String → Option CertPageData)
    (h : ∀ host ∈ PSA_HOSTS, fetch (psaCertUrl host cert) = none) :
    _psa_cert_info cert fetch = (psaCertUrl "https://psacard.com" cert, none, none) := by
  have h1 := h "https://www.psacard.com" (by simp [PSA_HOSTS])
  have h2 := h "https://psacard.com" (by simp [PSA_HOSTS])
  simp [_psa_cert_info, PSA_HOSTS, psaCertInfoGo, h1, h2]

/-- C2 amended witness. -/
theorem cert_resolver_all_fail_witness :
    _psa_cert_info "12345678" (fun _ => none) =
      (psaCertUrl "https://psacard.com" "12345678", none, none) :=
  cert_resolver_all_fail "12345678" (fun _ => none) (fun _ _ => rfl)

/-! ## Claims C3 / C4 — margin gate and formula -/

theorem buildRow_fields (label : String) (it : StoreItem) (comp : Option PsaComp)
    (fee ship : ℚ) :
    (buildRow label it comp fee ship).store_price = it.price ∧
    firstSome [(buildRow label it comp fee ship).apr_most_recent_grade,
      (buildRow label it comp fee ship).psa_estimate_cert_page,
      (buildRow label it comp fee ship).apr_median_recent_all] =
      (match comp with | some c => chooseCompValue c | none => none) := by
  rcases comp with _ | c
  · exact ⟨rfl, rfl⟩
  · exact ⟨rfl, rfl⟩

theorem processItem_ok_buildRow (env : NetEnv) (fee ship : ℚ) (pw : Bool)
    (label : String) (it : StoreItem) (row : OutputRow)
    (h : processItem env fee ship pw label it = Except.ok row) :
    ∃ comp : Option PsaComp, row = buildRow label it comp fee ship := by
  unfold processItem at h
  split at h
  · exact ⟨none, by injection h with h; exact h.symm⟩
  · split at h
    · exact ⟨some _, by injection h with h; exact h.symm⟩
    · exact ⟨none, by injection h with h; exact h.symm⟩
    · cases h

theorem buildRow_margins (label : String) (it : StoreItem) (comp : Option PsaComp)
    (fee ship : ℚ) :
    (buildRow label it comp fee ship).expected_net_est =
      ((computeMargins (match comp with | some c => chooseCompValue c | none => none)
        it.price fee ship).1).map pyRound2 ∧
    (buildRow label it comp fee ship).roi_pct_est =
      ((computeMargins (match comp with | some c => chooseCompValue c | none => none)
        it.price fee ship).2).map pyRound2 := ⟨rfl, rfl⟩

theorem computeMargins_eq (cv price : Option ℚ) (fee ship : ℚ) :
    computeMargins cv price fee ship =
      match cv, price with
      | some c, some p =>
        if 0 < p then
          (some (c * (1 - fee) - ship), some ((c * (1 - fee) - ship - p) / p * 100))
        else (none, none)
      | _, _ => (none, none) := by
  rcases cv with _ | c <;> rcases price with _ | p <;> simp [computeMargins]
  rcases lt_trichotomy 0 p with hp | hp | hp
  · simp [hp, ne_of_gt hp]
  · simp [hp.symm]
  · simp [not_lt_of_lt hp, ne_of_lt hp]

/-- C3: in every row the pipeline produces, the expected-net and ROI
fields are present exactly when the row carries a chosen comparable value
(first present of the three displayed signals) and a strictly positive
store price. -/
theorem margins_present_iff (env : NetEnv) (fee ship : ℚ) (pw : Bool)
    (label : String) (it : StoreItem) (row : OutputRow)
    (h : processItem env fee ship pw label it = Except.ok row) :
    (row.expected_net_est.isSome ↔
      (firstSome [row.apr_most_recent_grade, row.psa_estimate_cert_page,
        row.apr_median_recent_all]).isSome ∧
        ∃ p, row.store_price = some p ∧ 0 < p) ∧
    (row.roi_pct_est.isSome ↔
      (firstSome [row.apr_most_recent_grade, row.psa_estimate_cert_page,
        row.apr_median_recent_all]).isSome ∧
        ∃ p, row.store_price = some p ∧ 0 < p) := by
  obtain ⟨comp, rfl⟩ := processItem_ok_buildRow env fee ship pw label it row h
  obtain ⟨hsp, hfs⟩ := buildRow_fields label it comp fee ship
  obtain ⟨hnet, hroi⟩ := buildRow_margins label it comp fee ship
  rw [hsp, hfs, hnet, hroi, computeMargins_eq]
  rcases comp with _ | c
  · simp
  · rcases hcv : chooseCompValue c with _ | cv
    · simp [hcv]
    · rcases hp : it.price with _ | p
      · simp [hcv, hp]
      · by_cases h0 : 0 < p
        · simp [hcv, hp, h0]
        · simp [hcv, hp, h0]

/-- C3 witness: the invariant instantiated on a concrete pipeline row. -/
theorem margins_present_iff_witness :
    ((buildRow "Baseball" sampleItem
        (some ⟨psaCertUrl "https://www.psacard.com" "111", none, none, none,
          some 100, []⟩) (13/100) 5).expected_net_est.isSome ↔
      (firstSome [(buildRow "Baseball" sampleItem
        (some ⟨psaCertUrl "https://www.psacard.com" "111", none, none, none,
          some 100, []⟩) (13/100) 5).apr_most_recent_grade,
        (buildRow "Baseball" sampleItem
        (some ⟨psaCertUrl "https://www.psacard.com" "111", none, none, none,
          some 100, []⟩) (13/100) 5).psa_estimate_cert_page,
        (buildRow "Baseball" sampleItem
        (some ⟨psaCertUrl "https://www.psacard.com" "111", none, none, none,
          some 100, []⟩) (13/100) 5).apr_median_recent_all]).isSome ∧
        ∃ p, (buildRow "Baseball" sampleItem
        (some ⟨psaCertUrl "https://www.psacard.com" "111", none, none, none,
          some 100, []⟩) (13/100) 5).store_price = some p ∧ 0 < p) :=
  (margins_present_iff estimateOnlyEnv (13/100) 5 false "Baseball" sampleItem _
    (by with_unfolding_all rfl)).1

/-- C4: whenever a comparable value `c` and a strictly positive store
price `p` are present, the row shows
`round2 (c * (1 - fee_rate) - shipping)` and
`round2 ((c * (1 - fee_rate) - shipping - p) / p * 100)`: the formulas are
evaluated at full precision and only the displayed outputs are rounded
(the ROI is computed from the unrounded expected net). -/
theorem margin_formula (env : NetEnv) (fee ship : ℚ) (pw : Bool)
    (label : String) (it : StoreItem) (row : OutputRow) (c p : ℚ)
    (h : processItem env fee ship pw label it = Except.ok row)
    (hc : firstSome [row.apr_most_recent_grade, row.psa_estimate_cert_page,
      row.apr_median_recent_all] = some c)
    (hp : row.store_price = some p) (hpos : 0 < p) :
    row.expected_net_est = some (pyRound2 (c * (1 - fee) - ship)) ∧
    row.roi_pct_est = some (pyRound2 ((c * (1 - fee) - ship - p) / p * 100)) := by
  obtain ⟨comp, rfl⟩ := processItem_ok_buildRow env fee ship pw label it row h
  obtain ⟨hsp, hfs⟩ := buildRow_fields label it comp fee ship
  obtain ⟨hnet, hroi⟩ := buildRow_margins label it comp fee ship
  rw [hfs] at hc
  rw [hsp] at hp
  rw [hnet, hroi, computeMargins_eq, hc, hp]
  simp [hpos]

/-- C4 witness: comparable 100, fee 0.13, shipping 5, price 60 displays
expected net 82.0 and ROI 36.67. -/
theorem margin_formula_witness :
    (buildRow "Baseball" sampleItem
      (some ⟨psaCertUrl "https://www.psacard.com" "111", none, none, none,
        some 100, []⟩) (13/100) 5).expected_net_est = some 82 ∧
    (buildRow "Baseball" sampleItem
      (some ⟨psaCertUrl "https://www.psacard.com" "111", none, none, none,
        some 100, []⟩) (13/100) 5).roi_pct_est = some (3667/100) := by
  have hm := margin_formula estimateOnlyEnv (13/100) 5 false "Baseball" sampleItem _
    100 60 (by with_unfolding_all rfl) (by with_unfolding_all rfl)
    (by with_unfolding_all rfl) (by norm_num)
  constructor
  · have h1 := hm.1
    have e1 : pyRound2 (100 * (1 - 13/100) - 5) = (82 : ℚ) := by with_unfolding_all rfl
    rw [e1] at h1
    with_unfolding_all exact h1
  · have h2 := hm.2
    have e2 : pyRound2 ((100 * (1 - 13/100) - 5 - 60) / 60 * 100) = (3667/100 : ℚ) := by
      with_unfolding_all rfl
    rw [e2] at h2
    with_unfolding_all exact h2

/-! ## Claim C5 — sales-history fetch failure -/

/-- C5 counterexample: a certificate whose cert page yields an estimate
(50) and a sales-history link, but whose sales-history fetch fails: the
resolver raises (returns `error`, discarding the estimate) instead of
returning a bundle. -/
theorem apr_failure_counterexample :
    (_psa_cert_info "222" aprFailEnv.certFetch).2.2 = some 50 ∧
    _fetch_psa_comp aprFailEnv "222" (some 10) false = Except.error (NetErr.http 500) := by
  constructor
  · with_unfolding_all rfl
  · with_unfolding_all rfl

/-- C5 amended: a failure fetching the sales-history page propagates out
of `_fetch_psa_comp` (the fetch is unguarded), so the certificate-page
results are discarded; the orchestrator catches the HTTP-error case and
emits the row with every PSA-side field — including the cert-page URL and
estimate — absent. -/
theorem apr_failure_propagates :
    (∀ (env : NetEnv) (cert : String) (g : Option ℕ) (pw : Bool) (u : String) (e : NetErr),
      (_psa_cert_info cert env.certFetch).2.1 = some u →
      env.aprFetch u = Except.error e →
      _fetch_psa_comp env cert g pw = Except.error e) ∧
    (∀ (env : NetEnv) (fee ship : ℚ) (pw : Bool) (label : String) (it : StoreItem)
      (cert : String) (s : ℕ),
      it.psa_cert = some cert →
      _fetch_psa_comp env cert it.psa_grade_num pw = Except.error (NetErr.http s) →
      processItem env fee ship pw label it =
        Except.ok (buildRow label it none fee ship) ∧
      (buildRow label it none fee ship).psa_cert_url = none ∧
      (buildRow label it none fee ship).psa_apr_url = none ∧
      (buildRow label it none fee ship).psa_estimate_cert_page = none ∧
      (buildRow label it none fee ship).apr_most_recent_grade = none ∧
      (buildRow label it none fee ship).apr_median_recent_all = none ∧
      (buildRow label it none fee ship).expected_net_est = none ∧
      (buildRow label it none fee ship).roi_pct_est = none) := by
  constructor
  · intro env cert g pw u e hu he
    simp only [_fetch_psa_comp, hu, he]
  · intro env fee ship pw label it cert s hcert hf
    refine ⟨?_, rfl, rfl, rfl, rfl, rfl, rfl, rfl⟩
    simp only [processItem, hcert, hf]

/-- C5 amended witness. -/
theorem apr_failure_propagates_witness :
    _fetch_psa_comp aprFailEnv "222" (some 10) false = Except.error (NetErr.http 500) ∧
    processItem aprFailEnv (13/100) 5 false "Baseball"
        ⟨"cardshq.com", "u", "Card", some 60, none, some 10, some "222"⟩ =
      Except.ok (buildRow "Baseball"
        ⟨"cardshq.com", "u", "Card", some 60, none, some 10, some "222"⟩
        none (13/100) 5) := by
  have h1 := apr_failure_propagates.1 aprFailEnv "222" (some 10) false
    "https://www.psacard.com/auctionprices/x" (NetErr.http 500)
    (by with_unfolding_all rfl) (by with_unfolding_all rfl)
  refine ⟨h1, ?_⟩
  exact (apr_failure_propagates.2 aprFailEnv (13/100) 5 false "Baseball"
    ⟨"cardshq.com", "u", "Card", some 60, none, some 10, some "222"⟩ "222" 500 rfl h1).1

/-! ## Claim C9 — result table sorting -/

/-- C9: the returned table of a non-empty scan is the category rows sorted
by the ROI order (descending displayed ROI, absent ROI last); sorting only
permutes the rows, leaving each row's fields unchanged. -/
theorem scan_result_sorted (env : NetEnv) (cats : List String) (limit : Option ℕ)
    (fee ship : ℚ) (pw : Bool) (rows : List OutputRow)
    (h : scanCategories env fee ship limit pw (selectedCategories cats) = Except.ok rows)
    (hne : rows ≠ []) :
    scan_selected_categories env cats limit fee ship pw = Except.ok (sortRows rows) ∧
    List.Sorted roiOrder (sortRows rows) ∧
    (sortRows rows).Perm rows := by
  refine ⟨?_, List.sorted_insertionSort roiOrder rows, List.perm_insertionSort roiOrder rows⟩
  have hempty : rows.isEmpty = false := by
    cases rows with
    | nil => exact absurd rfl hne
    | cons a t => rfl
  simp [scan_selected_categories, h, Except.map, hempty]

/-- C9 witness: a one-listing scan returns its single row sorted. -/
theorem scan_result_sorted_witness :
    scan_selected_categories oneListingEnv ["Baseball"] none (13/100) 5 false =
      Except.ok (sortRows [buildRow "Baseball"
        ⟨"cardshq.com", "https://www.cardshq.com/products/p1", "Star Card PSA 9",
          some 40, some "PSA 9", some 9, none⟩ none (13/100) 5]) ∧
    List.Sorted roiOrder (sortRows [buildRow "Baseball"
        ⟨"cardshq.com", "https://www.cardshq.com/products/p1", "Star Card PSA 9",
          some 40, some "PSA 9", some 9, none⟩ none (13/100) 5]) := by
  have h := scan_result_sorted oneListingEnv ["Baseball"] none (13/100) 5 false
    [buildRow "Baseball"
      ⟨"cardshq.com", "https://www.cardshq.com/products/p1", "Star Card PSA 9",
        some 40, some "PSA 9", some 9, none⟩ none (13/100) 5]
    (by with_unfolding_all rfl) (by simp)
  exact ⟨h.1, h.2.1⟩

/-! ## Claim C10 — unknown category labels -/

theorem selectedCategoriesGo_sound (cats : List String) :
    ∀ acc, (∀ p ∈ acc, lookupCategory p.1 = some p.2) →
      ∀ p ∈ selectedCategoriesGo cats acc, lookupCategory p.1 = some p.2 := by
  induction cats with
  | nil => intro acc hacc p hp; exact hacc p hp
  | cons label rest ih =>
    intro acc hacc p hp
    rcases hl : lookupCategory label with _ | url
    · simp only [selectedCategoriesGo, hl] at hp
      exact ih acc hacc p hp
    · simp only [selectedCategoriesGo, hl] at hp
      split at hp
      · exact ih acc hacc p hp
      · refine ih (acc ++ [(label, url)]) ?_ p hp
        intro q hq
        rcases List.mem_append.1 hq with hq2 | hq2
        · exact hacc q hq2
        · have hq3 : q = (label, url) := by simpa using hq2
          rw [hq3]
          exact hl

theorem selectedCategoriesGo_none (cats : List String)
    (h : ∀ l ∈ cats, lookupCategory l = none) : ∀ acc, selectedCategoriesGo cats acc = acc := by
  induction cats with
  | nil => intro acc; rfl
  | cons label rest ih =>
    intro acc
    have hl : lookupCategory label = none := h label (by simp)
    simp only [selectedCategoriesGo, hl]
    exact ih (fun l hli => h l (by simp [hli])) acc

/-- C10: the scan processes only labels present in the fixed category
mapping (each selected pair is a mapping entry) and silently ignores every
other label; a list of only unknown labels yields an empty result table
without raising. -/
theorem unknown_labels_ignored :
    (∀ cats : List String, ∀ p ∈ selectedCategories cats, lookupCategory p.1 = some p.2) ∧
    (∀ (env : NetEnv) (limit : Option ℕ) (fee ship : ℚ) (pw : Bool) (cats : List String),
      (∀ l ∈ cats, lookupCategory l = none) →
      scan_selected_categories env cats limit fee ship pw = Except.ok []) := by
  constructor
  · intro cats
    exact selectedCategoriesGo_sound cats [] (by simp)
  · intro env limit fee ship pw cats h
    have hsel : selectedCategories cats = [] := selectedCategoriesGo_none cats h []
    simp [scan_selected_categories, hsel, scanCategories, Except.map]

/-- C10 witness: a scan over only unknown labels returns the empty table. -/
theorem unknown_labels_ignored_witness :
    scan_selected_categories failEnv ["Hockey", "Vintage"] none (13/100) 5 false =
      Except.ok [] :=
  unknown_labels_ignored.2 failEnv none (13/100) 5 false ["Hockey", "Vintage"] (by decide)

/-! ## Claim C8 — APR price collection and median -/

/-- C8: from a reachable sales-history page, at most the first 25
money-pattern matches are collected, and for a non-empty collection the
median field is the element at index `n / 2` of the ascending sort of the
`n` collected prices. -/
theorem apr_price_scan (env : NetEnv) (cert : String) (g : Option ℕ) (pw : Bool)
    (comp : PsaComp) (h : _fetch_psa_comp env cert g pw = Except.ok comp) :
    comp.last_n_prices.length ≤ 25 ∧
    (∀ u page, comp.apr_url = some u → env.aprFetch u = Except.ok page →
      comp.last_n_prices = ((findAllDollar page.text).take 25).filterMap parseMoneyGroup) ∧
    (comp.last_n_prices ≠ [] →
      comp.median_recent_sales =
        (List.insertionSort (fun a b : ℚ => a ≤ b)
          comp.last_n_prices)[comp.last_n_prices.length / 2]?) := by
  simp only [_fetch_psa_comp] at h
  rcases hau : (_psa_cert_info cert env.certFetch).2.1 with _ | u
  · rw [hau] at h
    simp only [] at h
    injection h with h
    subst h
    refine ⟨by simp, ?_, ?_⟩
    · intro u page hu _
      cases hu
    · intro hne
      exact absurd rfl hne
  · rw [hau] at h
    rcases hfetch : env.aprFetch u with e | page
    · simp only [hfetch] at h
      exact absurd h (by simp)
    · simp only [hfetch] at h
      injection h with h
      subst h
      refine ⟨?_, ?_, ?_⟩
      · exact le_trans (List.length_filterMap_le _ _) (List.length_take_le 25 _)
      · intro u2 page2 hu2 hpage2
        injection hu2 with hu2
        subst hu2
        rw [hfetch] at hpage2
        injection hpage2 with hpage2
        subst hpage2
        rfl
      · intro hne
        have hempty : (((findAllDollar page.text).take 25).filterMap
            parseMoneyGroup).isEmpty = false := by
          rcases hcase : ((findAllDollar page.text).take 25).filterMap parseMoneyGroup with
            _ | ⟨a, t⟩
          · exact absurd hcase hne
          · rfl
        simp only [hempty]
        rfl

/-- C8 witness: a page carrying `$7`, `$5`, `$6` collects three prices and
reports the sorted middle element 6 as the median. -/
theorem apr_price_scan_witness :
    (((7:ℚ) :: 5 :: 6 :: []).length ≤ 25 ∧
      ((7:ℚ) :: 5 :: 6 :: []) ≠ []) ∧
    _fetch_psa_comp aprOkEnv "333" none false = Except.ok
      ⟨psaCertUrl "https://www.psacard.com" "333",
        some "https://www.psacard.com/auctionprices/y", none, some 6, none,
        [7, 5, 6]⟩ ∧
    some (6:ℚ) = (List.insertionSort (fun a b : ℚ => a ≤ b)
      [(7:ℚ), 5, 6])[([(7:ℚ), 5, 6]).length / 2]? := by
  have hok : _fetch_psa_comp aprOkEnv "333" none false = Except.ok
      ⟨psaCertUrl "https://www.psacard.com" "333",
        some "https://www.psacard.com/auctionprices/y", none, some 6, none,
        [7, 5, 6]⟩ := by
    with_unfolding_all rfl
  have h3 := (apr_price_scan aprOkEnv "333" none false _ hok).2.2 (by
    intro hx
    exact absurd (congrArg List.length hx) (by decide))
  refine ⟨⟨by decide, by decide⟩, hok, ?_⟩
  simpa using h3

/-! ## Character-class and scanning lemmas (for the parser claims) -/

theorem space_not_digit {c : Char} (h : isPySpaceCh c = true) : isDigitCh c = false := by
  simp only [isPySpaceCh, decide_eq_true_eq] at h
  simp only [isDigitCh, decide_eq_false_iff_not]
  omega

theorem digit_not_space {c : Char} (h : isDigitCh c = true) : isPySpaceCh c = false := by
  simp only [isDigitCh, decide_eq_true_eq] at h
  simp only [isPySpaceCh, decide_eq_false_iff_not]
  omega

theorem class_not_digit {c : Char} (h : isGradeClassCh c = true) : isDigitCh c = false := by
  simp only [isGradeClassCh, isUpperCh, isPySpaceCh, Bool.or_eq_true,
    decide_eq_true_eq] at h
  simp only [isDigitCh, decide_eq_false_iff_not]
  omega

theorem digit_not_class {c : Char} (h : isDigitCh c = true) : isGradeClassCh c = false := by
  simp only [isDigitCh, decide_eq_true_eq] at h
  simp only [isGradeClassCh, isUpperCh, isPySpaceCh, Bool.or_eq_false_iff,
    decide_eq_false_iff_not]
  omega

theorem digit_ne_comma {c : Char} (h : isDigitCh c = true) : ¬ c = ',' := by
  intro he
  rw [he] at h
  exact absurd h (by decide)

theorem digit_ne_dot {c : Char} (h : isDigitCh c = true) : ¬ c = '.' := by
  intro he
  rw [he] at h
  exact absurd h (by decide)

theorem digit_toNat_bounds {c : Char} (h : isDigitCh c = true) :
    48 ≤ c.toNat ∧ c.toNat ≤ 57 := by
  simpa [isDigitCh] using h

theorem takeWhile_append_head (p : Char → Bool) (l1 l2 : List Char)
    (h1 : ∀ a ∈ l1, p a = true) (h2 : ∀ c, l2.head? = some c → p c = false) :
    (l1 ++ l2).takeWhile p = l1 := by
  rw [List.takeWhile_append_of_pos h1]
  cases l2 with
  | nil => simp
  | cons c t => simp [List.takeWhile_cons, h2 c rfl]

theorem dropWhile_append_head (p : Char → Bool) (l1 l2 : List Char)
    (h2 : ∀ c, l2.head? = some c → p c = false) :
    (l1 ++ l2).dropWhile p = l1.dropWhile p ++ l2 := by
  induction l1 with
  | nil =>
    cases l2 with
    | nil => rfl
    | cons c t => simp [List.dropWhile_cons, h2 c rfl]
  | cons a l ih =>
    by_cases hp : p a
    · simpa [List.dropWhile_cons, hp] using ih
    · simp [List.dropWhile_cons, hp]

theorem dropWhile_append_all (p : Char → Bool) (l1 l2 : List Char)
    (h1 : ∀ a ∈ l1, p a = true) (h2 : ∀ c, l2.head? = some c → p c = false) :
    (l1 ++ l2).dropWhile p = l2 := by
  rw [List.dropWhile_append_of_pos h1]
  cases l2 with
  | nil => rfl
  | cons c t => simp [List.dropWhile_cons, h2 c rfl]

theorem digitsUpTo_exact (d : List Char) :
    ∀ (n : ℕ) (r : List Char), (∀ c ∈ d, isDigitCh c = true) → d.length ≤ n →
      (∀ c, r.head? = some c → isDigitCh c = false) →
      digitsUpTo n (d ++ r) = (d, r) := by
  induction d with
  | nil =>
    intro n r _ _ hr
    cases n with
    | zero => rfl
    | succ m =>
      cases r with
      | nil => rfl
      | cons c t => simp [digitsUpTo, hr c rfl]
  | cons a d ih =>
    intro n r hd hlen hr
    cases n with
    | zero => exact absurd hlen (by simp)
    | succ m =>
      have ha : isDigitCh a = true := hd a (by simp)
      have hrec := ih m r (fun c hc => hd c (by simp [hc])) (by simpa using hlen) hr
      simp [digitsUpTo, ha, hrec]

theorem commaGroups_none (s : List Char) (h : ∀ c, s.head? = some c → ¬ c = ',') :
    commaGroups s = ([], s) := by
  rcases s with _ | ⟨c, t⟩
  · rfl
  rcases t with _ | ⟨a, t⟩
  · rfl
  rcases t with _ | ⟨b, t⟩
  · rfl
  rcases t with _ | ⟨e, t⟩
  · rfl
  simp [commaGroups, h c rfl]

theorem fracOpt2_none (s : List Char) (h : ∀ c, s.head? = some c → ¬ c = '.') :
    fracOpt2 s = ([], s) := by
  rcases s with _ | ⟨c, t⟩
  · rfl
  rcases t with _ | ⟨a, t⟩
  · rfl
  rcases t with _ | ⟨b, t⟩
  · rfl
  simp [fracOpt2, h c rfl]

theorem fracOpt1_none (s : List Char) (h : ∀ c, s.head? = some c → ¬ c = '.') :
    fracOpt1 s = ([], s) := by
  rcases s with _ | ⟨c, t⟩
  · rfl
  rcases t with _ | ⟨a, t⟩
  · rfl
  simp [fracOpt1, h c rfl]

theorem fracOpt2_dot (a b : Char) (t : List Char) (ha : isDigitCh a = true)
    (hb : isDigitCh b = true) : fracOpt2 ('.' :: a :: b :: t) = (['.', a, b], t) := by
  simp [fracOpt2, ha, hb]

theorem fracOpt1_dot (a : Char) (t : List Char) (ha : isDigitCh a = true) :
    fracOpt1 ('.' :: a :: t) = (['.', a], t) := by
  simp [fracOpt1, ha]

theorem commaGroups_build (groups : List (List Char)) :
    ∀ r : List Char, (∀ g ∈ groups, g.length = 3 ∧ ∀ c ∈ g, isDigitCh c = true) →
      (∀ c, r.head? = some c → ¬ c = ',') →
      commaGroups (withCommas groups ++ r) = (withCommas groups, r) := by
  induction groups with
  | nil =>
    intro r _ hr
    simpa [withCommas] using commaGroups_none r hr
  | cons g gs ih =>
    intro r hg hr
    obtain ⟨hlen, hdig⟩ := hg g (by simp)
    rcases g with _ | ⟨a, g⟩
    · simp at hlen
    rcases g with _ | ⟨b, g⟩
    · simp at hlen
    rcases g with _ | ⟨d, g⟩
    · simp at hlen
    rcases g with _ | ⟨e, g⟩
    · have ha : isDigitCh a = true := hdig a (by simp)
      have hb : isDigitCh b = true := hdig b (by simp)
      have hd : isDigitCh d = true := hdig d (by simp)
      have hrec := ih r (fun g2 hg2 => hg g2 (by simp [hg2])) hr
      simp [withCommas, commaGroups, ha, hb, hd, hrec]
    · simp at hlen

theorem moneyGroupAt_build (d : List Char) (groups : List (List Char)) (fr post : List Char)
    (hd : d ≠ []) (hdlen : d.length ≤ 3) (hdd : ∀ c ∈ d, isDigitCh c = true)
    (hg : ∀ g ∈ groups, g.length = 3 ∧ ∀ c ∈ g, isDigitCh c = true)
    (hfr : fr = [] ∨ ∃ a b, isDigitCh a = true ∧ isDigitCh b = true ∧ fr = ['.', a, b])
    (hpost : ∀ c, post.head? = some c → isDigitCh c = false ∧ ¬ c = ',' ∧ ¬ c = '.') :
    moneyGroupAt (d ++ withCommas groups ++ fr ++ post) =
      some (d ++ withCommas groups ++ fr, post) := by
  rcases d with _ | ⟨c0, d0⟩
  · exact absurd rfl hd
  have hc0 : isDigitCh c0 = true := hdd c0 (by simp)
  have htail : ∀ c, (withCommas groups ++ fr ++ post).head? = some c → isDigitCh c = false := by
    intro c hc
    rcases groups with _ | ⟨g, gs⟩
    · simp only [withCommas, List.nil_append] at hc
      rcases hfr with hfr0 | ⟨a, b, _, _, hfr0⟩
      · rw [hfr0] at hc
        simp only [List.nil_append] at hc
        exact (hpost c hc).1
      · rw [hfr0] at hc
        simp only [List.cons_append, List.head?_cons] at hc
        injection hc with hc
        rw [← hc]
        decide
    · simp only [withCommas, List.cons_append, List.head?_cons] at hc
      injection hc with hc
      rw [← hc]
      decide
  have hfrpost : ∀ c, (fr ++ post).head? = some c → ¬ c = ',' := by
    intro c hc
    rcases hfr with hfr0 | ⟨a, b, _, _, hfr0⟩
    · rw [hfr0] at hc
      simp only [List.nil_append] at hc
      exact (hpost c hc).2.1
    · rw [hfr0] at hc
      simp only [List.cons_append, List.head?_cons] at hc
      injection hc with hc
      rw [← hc]
      decide
  have h1 : digitsUpTo 3 ((c0 :: d0) ++ (withCommas groups ++ fr ++ post)) =
      (c0 :: d0, withCommas groups ++ fr ++ post) :=
    digitsUpTo_exact (c0 :: d0) 3 (withCommas groups ++ fr ++ post) hdd hdlen htail
  have h2 : commaGroups (withCommas groups ++ (fr ++ post)) = (withCommas groups, fr ++ post) :=
    commaGroups_build groups (fr ++ post) hg hfrpost
  have h3 : fracOpt2 (fr ++ post) = (fr, post) := by
    rcases hfr with hfr0 | ⟨a, b, ha, hb, hfr0⟩
    · rw [hfr0]
      simp only [List.nil_append]
      exact fracOpt2_none post (fun c hc => (hpost c hc).2.2)
    · rw [hfr0]
      exact fracOpt2_dot a b post ha hb
  have hbranch : moneyBranch1 ((c0 :: d0) ++ (withCommas groups ++ fr ++ post)) =
      some ((c0 :: d0) ++ withCommas groups ++ fr, post) := by
    simp only [moneyBranch1, List.cons_append, hc0, if_true]
    simp only [← List.cons_append, h1]
    simp only [← List.append_assoc] at h2 ⊢
    simp only [List.append_assoc] at h2 ⊢
    rw [h2, h3]
  simp only [moneyGroupAt]
  simp only [List.append_assoc] at hbranch ⊢
  rw [hbranch]

theorem moneyMatchAt_head_fail (sym : Char → Bool) (c : Char) (t : List Char)
    (h : sym c = false) : moneyMatchAt sym (c :: t) = none := by
  simp [moneyMatchAt, h]

theorem moneyMatchAt_build (sym : Char → Bool) (symc : Char) (hsym : sym symc = true)
    (ws d : List Char) (groups : List (List Char)) (fr post : List Char)
    (hws : ∀ c ∈ ws, isPySpaceCh c = true)
    (hd : d ≠ []) (hdlen : d.length ≤ 3) (hdd : ∀ c ∈ d, isDigitCh c = true)
    (hg : ∀ g ∈ groups, g.length = 3 ∧ ∀ c ∈ g, isDigitCh c = true)
    (hfr : fr = [] ∨ ∃ a b, isDigitCh a = true ∧ isDigitCh b = true ∧ fr = ['.', a, b])
    (hpost : ∀ c, post.head? = some c → isDigitCh c = false ∧ ¬ c = ',' ∧ ¬ c = '.') :
    moneyMatchAt sym (symc :: (ws ++ (d ++ withCommas groups ++ fr ++ post))) =
      some (d ++ withCommas groups ++ fr, post) := by
  have hdrop : (ws ++ (d ++ withCommas groups ++ fr ++ post)).dropWhile isPySpaceCh =
      d ++ withCommas groups ++ fr ++ post := by
    refine dropWhile_append_all isPySpaceCh ws _ hws ?_
    intro c hc
    rcases d with _ | ⟨c0, d0⟩
    · exact absurd rfl hd
    simp only [List.cons_append, List.head?_cons] at hc
    injection hc with hc
    rw [← hc]
    exact digit_not_space (hdd c0 (by simp))
  simp only [moneyMatchAt, hsym, if_true, hdrop]
  exact moneyGroupAt_build d groups fr post hd hdlen hdd hg hfr hpost

theorem parseDecimal_digits (I : List Char) (hI : I ≠ [])
    (hd : ∀ c ∈ I, isDigitCh c = true) : parseDecimal I = some (digitsVal I) := by
  have ht : I.takeWhile isDigitCh = I := List.takeWhile_eq_self_iff.2 hd
  have hdr : I.dropWhile isDigitCh = [] := List.dropWhile_eq_nil_iff.2 hd
  have hne : I.isEmpty = false := by
    cases I with
    | nil => exact absurd rfl hI
    | cons c t => rfl
  simp [parseDecimal, ht, hdr, hne]

theorem parseDecimal_digits_frac (I fs : List Char) (hI : I ≠ [])
    (hd : ∀ c ∈ I, isDigitCh c = true) (hfs : fs ≠ [])
    (hfd : ∀ c ∈ fs, isDigitCh c = true) :
    parseDecimal (I ++ '.' :: fs) =
      some ((digitsVal I : ℚ) + (digitsVal fs : ℚ) / (10 : ℚ) ^ fs.length) := by
  have hdot : ∀ c, ('.' :: fs).head? = some c → isDigitCh c = false := by
    intro c hc
    simp only [List.head?_cons] at hc
    injection hc with hc
    rw [← hc]
    decide
  have ht : (I ++ '.' :: fs).takeWhile isDigitCh = I :=
    takeWhile_append_head isDigitCh I ('.' :: fs) hd hdot
  have hdr : (I ++ '.' :: fs).dropWhile isDigitCh = '.' :: fs :=
    dropWhile_append_all isDigitCh I ('.' :: fs) hd hdot
  have hne : I.isEmpty = false := by
    cases I with
    | nil => exact absurd rfl hI
    | cons c t => rfl
  have hall : fs.all isDigitCh = true := List.all_eq_true.2 hfd
  simp [parseDecimal, ht, hdr, hne, hfs, hall]

theorem filter_not_comma (l : List Char) (h : ∀ c ∈ l, ¬ c = ',') :
    l.filter (fun c => decide (c ≠ ',')) = l := by
  refine List.filter_eq_self.2 ?_
  intro c hc
  simpa using h c hc

theorem filter_not_comma_of_digits (l : List Char) (h : ∀ c ∈ l, isDigitCh c = true) :
    l.filter (fun c => decide (c ≠ ',')) = l :=
  filter_not_comma l (fun c hc => digit_ne_comma (h c hc))

theorem withCommas_filter (groups : List (List Char))
    (hg : ∀ g ∈ groups, g.length = 3 ∧ ∀ c ∈ g, isDigitCh c = true) :
    (withCommas groups).filter (fun c => decide (c ≠ ',')) = flatGroups groups := by
  induction groups with
  | nil => rfl
  | cons g gs ih =>
    have hgd := (hg g (by simp)).2
    simp only [withCommas, flatGroups, List.filter_cons, List.filter_append]
    have hcomma : (decide ((',' : Char) ≠ ',')) = false := by decide
    rw [hcomma]
    simp only [Bool.false_eq_true, if_false]
    rw [filter_not_comma_of_digits g hgd, ih (fun g2 h2 => hg g2 (by simp [h2]))]

theorem flatGroups_digits (groups : List (List Char))
    (hg : ∀ g ∈ groups, g.length = 3 ∧ ∀ c ∈ g, isDigitCh c = true) :
    ∀ c ∈ flatGroups groups, isDigitCh c = true := by
  induction groups with
  | nil => intro c hc; simp [flatGroups] at hc
  | cons g gs ih =>
    intro c hc
    simp only [flatGroups, List.mem_append] at hc
    rcases hc with hc | hc
    · exact (hg g (by simp)).2 c hc
    · exact ih (fun g2 h2 => hg g2 (by simp [h2])) c hc

theorem parseMoneyGroup_value (d : List Char) (groups : List (List Char)) (fr : List Char)
    (hd : d ≠ []) (hdd : ∀ c ∈ d, isDigitCh c = true)
    (hg : ∀ g ∈ groups, g.length = 3 ∧ ∀ c ∈ g, isDigitCh c = true)
    (hfr : fr = [] ∨ ∃ a b, isDigitCh a = true ∧ isDigitCh b = true ∧ fr = ['.', a, b]) :
    parseMoneyGroup (d ++ withCommas groups ++ fr) =
      some ((digitsVal (d ++ flatGroups groups) : ℚ) + fracVal fr) := by
  have hIne : d ++ flatGroups groups ≠ [] := by
    rcases d with _ | ⟨c0, d0⟩
    · exact absurd rfl hd
    · simp
  have hId : ∀ c ∈ d ++ flatGroups groups, isDigitCh c = true := by
    intro c hc
    rcases List.mem_append.1 hc with hc | hc
    · exact hdd c hc
    · exact flatGroups_digits groups hg c hc
  rcases hfr with hfr0 | ⟨a, b, ha, hb, hfr0⟩
  · have hfilter : (d ++ withCommas groups ++ fr).filter (fun c => decide (c ≠ ',')) =
        d ++ flatGroups groups := by
      rw [hfr0]
      simp only [List.append_nil, List.filter_append]
      rw [filter_not_comma_of_digits d hdd, withCommas_filter groups hg]
    rw [parseMoneyGroup, hfilter, parseDecimal_digits _ hIne hId, hfr0]
    simp [fracVal]
  · have hfilter : (d ++ withCommas groups ++ fr).filter (fun c => decide (c ≠ ',')) =
        (d ++ flatGroups groups) ++ '.' :: [a, b] := by
      rw [hfr0]
      simp only [List.filter_append]
      have hnc : ∀ c ∈ ['.', a, b], ¬ c = ',' := by
        intro c hc
        simp only [List.mem_cons, List.not_mem_nil, or_false] at hc
        rcases hc with rfl | rfl | rfl
        · decide
        · exact digit_ne_comma ha
        · exact digit_ne_comma hb
      rw [filter_not_comma_of_digits d hdd, withCommas_filter groups hg,
        filter_not_comma ['.', a, b] hnc]
    rw [parseMoneyGroup, hfilter,
      parseDecimal_digits_frac _ [a, b] hIne hId (by simp)
        (by intro c hc; simp at hc; rcases hc with rfl | rfl; exact ha; exact hb),
      hfr0]
    simp [fracVal]

/-! ## Claim C7 — the money parser -/

/-- C7 counterexample: `"$1234.50"` contains exactly one currency amount
(`1234.50`, an ungrouped integer part with a two-digit fraction), yet the
parser returns `123`: the first regex alternative greedily matches
`[0-9]{1,3}` and wins over the full ungrouped alternative. -/
theorem money_parser_counterexample :
    _clean_money "$1234.50".toList = some (123 : ℚ) ∧
    _clean_money "$1234.50".toList ≠ some (1234.5 : ℚ) := by
  have h : _clean_money "$1234.50".toList = some (123 : ℚ) := by with_unfolding_all rfl
  refine ⟨h, ?_⟩
  rw [h]
  intro he
  injection he with he
  norm_num at he

/-- C7 amended: for text whose single currency amount has an integer part
of at most three digits before any thousands grouping (the shapes on which
the regex's first alternative agrees with the whole amount), the parser
returns the amount with grouping separators removed; for text containing
no currency symbol it returns absent; it never throws (it is a total
function). Amounts with an ungrouped integer part longer than three digits
are truncated to their first three digits (see the counterexample). -/
theorem money_parser_amended :
    (∀ (pre ws d : List Char) (groups : List (List Char)) (fr post : List Char) (symc : Char),
      (∀ c ∈ pre, isMoneySymCh c = false) →
      isMoneySymCh symc = true →
      (∀ c ∈ ws, isPySpaceCh c = true) →
      d ≠ [] → d.length ≤ 3 → (∀ c ∈ d, isDigitCh c = true) →
      (∀ g ∈ groups, g.length = 3 ∧ ∀ c ∈ g, isDigitCh c = true) →
      (fr = [] ∨ ∃ a b, isDigitCh a = true ∧ isDigitCh b = true ∧ fr = ['.', a, b]) →
      (∀ c, post.head? = some c → isDigitCh c = false ∧ ¬ c = ',' ∧ ¬ c = '.') →
      _clean_money (pre ++ symc :: (ws ++ (d ++ withCommas groups ++ fr ++ post))) =
        some ((digitsVal (d ++ flatGroups groups) : ℚ) + fracVal fr)) ∧
    (∀ txt : List Char, (∀ c ∈ txt, isMoneySymCh c = false) → _clean_money txt = none) := by
  constructor
  · intro pre ws d groups fr post symc hpre hsym hws hd hdlen hdd hg hfr hpost
    have hne : (pre ++ symc :: (ws ++ (d ++ withCommas groups ++ fr ++ post))).isEmpty
        = false := by
      cases pre <;> rfl
    have hmatch := moneyMatchAt_build isMoneySymCh symc hsym ws d groups fr post
      hws hd hdlen hdd hg hfr hpost
    have hskip := searchWith_skip_head (moneyMatchAt isMoneySymCh) isMoneySymCh
      (fun c t hc => moneyMatchAt_head_fail isMoneySymCh c t hc) pre
      (symc :: (ws ++ (d ++ withCommas groups ++ fr ++ post))) hpre
    have hfound := searchWith_of_match (moneyMatchAt isMoneySymCh) _ hmatch
    simp only [_clean_money, hne, Bool.false_eq_true, if_false, hskip, hfound]
    exact parseMoneyGroup_value d groups fr hd hdd hg hfr
  · intro txt h
    by_cases he : txt.isEmpty
    · simp [_clean_money, he]
    · have hs := searchWith_none (moneyMatchAt isMoneySymCh) isMoneySymCh
        (fun c t hc => moneyMatchAt_head_fail isMoneySymCh c t hc) rfl txt h
      simp [_clean_money, he, hs]

/-- C7 amended witness: `$1,234.50` inside surrounding text parses to
1234.50, and symbol-free text parses to absent. -/
theorem money_parser_amended_witness :
    _clean_money "price: $1,234.50 today".toList = some (1234.5 : ℚ) ∧
    _clean_money "no amount here".toList = none := by
  have hpost : ∀ c, (" today".toList).head? = some c →
      isDigitCh c = false ∧ ¬ c = ',' ∧ ¬ c = '.' := by
    intro c hc
    have h2 : (" today".toList).head? = some ' ' := by with_unfolding_all rfl
    rw [h2] at hc
    injection hc with hc
    rw [← hc]
    refine ⟨by decide, by decide, by decide⟩
  have h1 := money_parser_amended.1 "price: ".toList [] ['1'] [['2', '3', '4']]
    ['.', '5', '0'] " today".toList '$'
    (by decide) (by decide) (by decide) (by decide) (by decide) (by decide)
    (by decide)
    (Or.inr ⟨'5', '0', by decide, by decide, rfl⟩) hpost
  constructor
  · have e : ((digitsVal (['1'] ++ flatGroups [['2', '3', '4']]) : ℚ) +
        fracVal ['.', '5', '0']) = (1234.5 : ℚ) := by
      with_unfolding_all rfl
    rw [e] at h1
    with_unfolding_all exact h1
  · exact money_parser_amended.2 "no amount here".toList (by decide)

/-! ## Case-mapping and grade-matcher lemmas (for C6) -/

theorem asciiLowerCh_not_digit {c : Char} (h : isDigitCh c = false) :
    isDigitCh (asciiLowerCh c) = false := by
  unfold asciiLowerCh
  rcases hf : asciiCasePairs.find? (fun p => p.1 = c) with _ | p <;> rw [hf]
  · exact h
  · have hm := List.mem_of_find?_eq_some hf
    fin_cases hm <;> rfl

theorem asciiUpperCh_not_digit {c : Char} (h : isDigitCh c = false) :
    isDigitCh (asciiUpperCh c) = false := by
  unfold asciiUpperCh
  rcases hf : asciiCasePairs.find? (fun p => p.2 = c) with _ | p <;> rw [hf]
  · exact h
  · have hm := List.mem_of_find?_eq_some hf
    fin_cases hm <;> rfl

theorem pyTitleGo_nonAlpha (s : List Char)
    (h : ∀ c ∈ s, (isUpperCh c || isLowerCh c) = false) : ∀ b, pyTitleGo b s = s := by
  induction s with
  | nil => intro b; rfl
  | cons c t ih =>
    intro b
    have hc := h c (by simp)
    simp [pyTitleGo, hc, ih (fun a ha => h a (by simp [ha]))]

theorem pyTitleGo_split (l1 : List Char) (h1 : ∀ c ∈ l1, isDigitCh c = false) :
    ∀ (l2 : List Char) (b : Bool), ∃ l1t b2,
      pyTitleGo b (l1 ++ l2) = l1t ++ pyTitleGo b2 l2 ∧
      ∀ c ∈ l1t, isDigitCh c = false := by
  induction l1 with
  | nil =>
    intro l2 b
    exact ⟨[], b, rfl, by simp⟩
  | cons c t ih =>
    intro l2 b
    have hc := h1 c (by simp)
    by_cases halpha : (isUpperCh c || isLowerCh c) = true
    · obtain ⟨l1t, b2, heq, hnd⟩ := ih (fun a ha => h1 a (by simp [ha])) l2 true
      refine ⟨(if b then asciiLowerCh c else asciiUpperCh c) :: l1t, b2, ?_, ?_⟩
      · simp [pyTitleGo, halpha, heq]
      · intro a ha
        rcases List.mem_cons.1 ha with ha | ha
        · rw [ha]
          by_cases hb : b <;> simp [hb]
          · exact asciiLowerCh_not_digit hc
          · exact asciiUpperCh_not_digit hc
        · exact hnd a ha
    · obtain ⟨l1t, b2, heq, hnd⟩ := ih (fun a ha => h1 a (by simp [ha])) l2 false
      refine ⟨c :: l1t, b2, ?_, ?_⟩
      · simp [pyTitleGo, halpha, heq]
      · intro a ha
        rcases List.mem_cons.1 ha with ha | ha
        · rw [ha]; exact hc
        · exact hnd a ha

theorem pyTitle_ne_nil {g : List Char} (h : g ≠ []) : pyTitle g ≠ [] := by
  rcases g with _ | ⟨c, t⟩
  · exact absurd rfl h
  · unfold pyTitle pyTitleGo
    by_cases ha : (isUpperCh c || isLowerCh c) = true <;> simp [ha]

theorem gradeDigitsMatchAt_head_fail (c : Char) (t : List Char) (h : isDigitCh c = false) :
    gradeDigitsMatchAt (c :: t) = none := by
  simp [gradeDigitsMatchAt, h]

theorem gradeDigits_build (ds fr post : List Char)
    (hds : ds ≠ []) (hlen : ds.length ≤ 2) (hdd : ∀ c ∈ ds, isDigitCh c = true)
    (hfr : fr = [] ∨ ∃ a, isDigitCh a = true ∧ fr = ['.', a])
    (hpost : ∀ c, post.head? = some c → isDigitCh c = false ∧ ¬ c = '.') :
    gradeDigitsMatchAt (ds ++ fr ++ post) = some (ds ++ fr) := by
  rcases ds with _ | ⟨c0, d0⟩
  · exact absurd rfl hds
  have hc0 : isDigitCh c0 = true := hdd c0 (by simp)
  have htail : ∀ c, (fr ++ post).head? = some c → isDigitCh c = false := by
    intro c hc
    rcases hfr with h0 | ⟨a, ha, h0⟩
    · rw [h0] at hc
      simp only [List.nil_append] at hc
      exact (hpost c hc).1
    · rw [h0] at hc
      simp only [List.cons_append, List.head?_cons] at hc
      injection hc with hc
      rw [← hc]
      decide
  have h1 : digitsUpTo 2 ((c0 :: d0) ++ (fr ++ post)) = (c0 :: d0, fr ++ post) :=
    digitsUpTo_exact (c0 :: d0) 2 (fr ++ post) hdd hlen htail
  have h2 : fracOpt1 (fr ++ post) = (fr, post) := by
    rcases hfr with h0 | ⟨a, ha, h0⟩
    · rw [h0]
      simp only [List.nil_append]
      exact fracOpt1_none post (fun c hc => (hpost c hc).2)
    · rw [h0]
      exact fracOpt1_dot a post ha
  simp only [gradeDigitsMatchAt, List.cons_append, hc0, if_true]
  simp only [← List.cons_append, List.append_assoc] at h1 ⊢
  rw [h1, h2]

theorem gradeLabelGroup_build (mid ds fr post : List Char)
    (hmid : ∀ c ∈ mid, isGradeClassCh c = true)
    (hds : ds ≠ []) (hlen : ds.length ≤ 2) (hdd : ∀ c ∈ ds, isDigitCh c = true)
    (hfr : fr = [] ∨ ∃ a, isDigitCh a = true ∧ fr = ['.', a])
    (hpost : ∀ c, post.head? = some c → isDigitCh c = false ∧ ¬ c = '.') :
    gradeLabelGroup (mid ++ ds ++ fr ++ post) = some (mid ++ ds ++ fr) := by
  rcases ds with _ | ⟨c0, d0⟩
  · exact absurd rfl hds
  have hc0 : isDigitCh c0 = true := hdd c0 (by simp)
  have hheadd : ∀ c, ((c0 :: d0) ++ (fr ++ post)).head? = some c → isGradeClassCh c = false := by
    intro c hc
    simp only [List.cons_append, List.head?_cons] at hc
    injection hc with hc
    rw [← hc]
    exact digit_not_class hc0
  have htake : (mid ++ ((c0 :: d0) ++ (fr ++ post))).takeWhile isGradeClassCh = mid :=
    takeWhile_append_head isGradeClassCh mid _ hmid hheadd
  have hdrop : (mid ++ ((c0 :: d0) ++ (fr ++ post))).dropWhile isGradeClassCh =
      (c0 :: d0) ++ (fr ++ post) :=
    dropWhile_append_all isGradeClassCh mid _ hmid hheadd
  have hdig := gradeDigits_build (c0 :: d0) fr post hds hlen hdd hfr hpost
  simp only [gradeDigitsMatchAt, List.cons_append, hc0, if_true] at hdig
  simp only [gradeLabelGroup, List.append_assoc, List.cons_append] at htake hdrop ⊢
  rw [htake, hdrop]
  simp only [List.cons_append, List.head?_cons, hc0, if_true]
  simp only [List.append_assoc] at hdig
  rcases hsplit : digitsUpTo 2 (c0 :: (d0 ++ (fr ++ post))) with ⟨p1a, p1b⟩
  rcases hsplit2 : fracOpt1 p1b with ⟨p2a, p2b⟩
  rw [hsplit, hsplit2] at hdig
  simp only [Option.some_inj] at hdig
  simp [hdig]

theorem gradeLabelMatchAt_head_fail (c : Char) (t : List Char) (h : ¬ c = 'G') :
    gradeLabelMatchAt (c :: t) = none := by
  rcases t with _ | ⟨a, t⟩
  · rfl
  rcases t with _ | ⟨b, t⟩
  · rfl
  rcases t with _ | ⟨d, t⟩
  · rfl
  rcases t with _ | ⟨e, t⟩
  · rfl
  simp [gradeLabelMatchAt, h]

theorem gradeLabelMatchAt_build (ws1 mid ds fr post : List Char)
    (hws : ∀ c ∈ ws1, isPySpaceCh c = true)
    (hmid : ∀ c ∈ mid, isGradeClassCh c = true)
    (hds : ds ≠ []) (hlen : ds.length ≤ 2) (hdd : ∀ c ∈ ds, isDigitCh c = true)
    (hfr : fr = [] ∨ ∃ a, isDigitCh a = true ∧ fr = ['.', a])
    (hpost : ∀ c, post.head? = some c → isDigitCh c = false ∧ ¬ c = '.') :
    gradeLabelMatchAt ('G' :: 'R' :: 'A' :: 'D' :: 'E' ::
        (ws1 ++ ':' :: (mid ++ ds ++ fr ++ post))) =
      some (mid.dropWhile isPySpaceCh ++ ds ++ fr) := by
  have hdrop1 : (ws1 ++ ':' :: (mid ++ ds ++ fr ++ post)).dropWhile isPySpaceCh =
      ':' :: (mid ++ ds ++ fr ++ post) := by
    refine dropWhile_append_all isPySpaceCh ws1 _ hws ?_
    intro c hc
    simp only [List.head?_cons] at hc
    injection hc with hc
    rw [← hc]
    decide
  have hdrop2 : (mid ++ ds ++ fr ++ post).dropWhile isPySpaceCh =
      mid.dropWhile isPySpaceCh ++ (ds ++ fr ++ post) := by
    have hhead : ∀ c, (ds ++ fr ++ post).head? = some c → isPySpaceCh c = false := by
      intro c hc
      rcases ds with _ | ⟨c0, d0⟩
      · exact absurd rfl hds
      simp only [List.cons_append, List.head?_cons] at hc
      injection hc with hc
      rw [← hc]
      exact digit_not_space (hdd c0 (by simp))
    have := dropWhile_append_head isPySpaceCh mid (ds ++ fr ++ post) hhead
    simpa [List.append_assoc] using this
  have hmid2 : ∀ c ∈ mid.dropWhile isPySpaceCh, isGradeClassCh c = true := by
    intro c hc
    exact hmid c ((List.dropWhile_sublist isPySpaceCh).subset hc)
  have hgroup := gradeLabelGroup_build (mid.dropWhile isPySpaceCh) ds fr post
    hmid2 hds hlen hdd hfr hpost
  have hcond : ('G' : Char) = 'G' ∧ ('R' : Char) = 'R' ∧ ('A' : Char) = 'A' ∧
      ('D' : Char) = 'D' ∧ ('E' : Char) = 'E' := ⟨rfl, rfl, rfl, rfl, rfl⟩
  simp only [gradeLabelMatchAt, if_pos hcond, hdrop1]
  simp only [List.append_assoc] at hdrop2 hgroup ⊢
  show (if (':' : Char) = ':' then
      gradeLabelGroup ((mid ++ (ds ++ (fr ++ post))).dropWhile isPySpaceCh)
    else none) = some (mid.dropWhile isPySpaceCh ++ (ds ++ fr))
  rw [if_pos rfl, hdrop2, hgroup]

theorem psaGradeMatchAt_head_fail (c : Char) (t : List Char) (h : ¬ c = 'P') :
    psaGradeMatchAt (c :: t) = none := by
  rcases t with _ | ⟨a, t⟩
  · rfl
  rcases t with _ | ⟨b, t⟩
  · rfl
  simp [psaGradeMatchAt, h]

theorem psaGradeMatchAt_build (ws ds fr post : List Char)
    (hws : ∀ c ∈ ws, isPySpaceCh c = true)
    (hds : ds ≠ []) (hlen : ds.length ≤ 2) (hdd : ∀ c ∈ ds, isDigitCh c = true)
    (hfr : fr = [] ∨ ∃ a, isDigitCh a = true ∧ fr = ['.', a])
    (hpost : ∀ c, post.head? = some c → isDigitCh c = false ∧ ¬ c = '.') :
    psaGradeMatchAt ('P' :: 'S' :: 'A' :: (ws ++ ds ++ fr ++ post)) = some (ds ++ fr) := by
  have hdrop : (ws ++ ds ++ fr ++ post).dropWhile isPySpaceCh = ds ++ fr ++ post := by
    have hhead : ∀ c, (ds ++ fr ++ post).head? = some c → isPySpaceCh c = false := by
      intro c hc
      rcases ds with _ | ⟨c0, d0⟩
      · exact absurd rfl hds
      simp only [List.cons_append, List.head?_cons] at hc
      injection hc with hc
      rw [← hc]
      exact digit_not_space (hdd c0 (by simp))
    have := dropWhile_append_all isPySpaceCh ws (ds ++ fr ++ post) hws hhead
    simpa [List.append_assoc] using this
  have hcond : ('P' : Char) = 'P' ∧ ('S' : Char) = 'S' ∧ ('A' : Char) = 'A' :=
    ⟨rfl, rfl, rfl⟩
  have hdig := gradeDigits_build ds fr post hds hlen hdd hfr hpost
  simp only [psaGradeMatchAt, if_pos hcond]
  simp only [List.append_assoc] at hdrop ⊢
  rw [hdrop]
  simpa [List.append_assoc] using hdig

theorem digitsVal_single_le {a : Char} (ha : isDigitCh a = true) : digitsVal [a] ≤ 9 := by
  have := digit_toNat_bounds ha
  simp only [digitsVal, List.foldl]
  omega

theorem grade_floor_value (ds fr : List Char) (hds : ds ≠ [])
    (hdd : ∀ c ∈ ds, isDigitCh c = true)
    (hfr : fr = [] ∨ ∃ a, isDigitCh a = true ∧ fr = ['.', a]) :
    ∃ q, parseDecimal (ds ++ fr) = some q ∧ (Rat.floor q).toNat = digitsVal ds := by
  rcases hfr with h0 | ⟨a, ha, h0⟩
  · refine ⟨(digitsVal ds : ℚ), ?_, ?_⟩
    · rw [h0, List.append_nil]
      exact parseDecimal_digits ds hds hdd
    · have hfl : Rat.floor ((digitsVal ds : ℕ) : ℚ) = ((digitsVal ds : ℕ) : ℤ) := by
        show ⌊((digitsVal ds : ℕ) : ℚ)⌋ = _
        exact Int.floor_natCast _
      rw [hfl, Int.toNat_natCast]
  · refine ⟨(digitsVal ds : ℚ) + (digitsVal [a] : ℚ) / (10 : ℚ) ^ ([a] : List Char).length,
      ?_, ?_⟩
    · rw [h0]
      exact parseDecimal_digits_frac ds [a] hds hdd (by simp) (by
        intro c hc
        simp only [List.mem_cons, List.not_mem_nil, or_false] at hc
        rw [hc]
        exact ha)
    · have hb : (digitsVal [a] : ℚ) ≤ 9 := by exact_mod_cast digitsVal_single_le ha
      have hnn : (0 : ℚ) ≤ (digitsVal [a] : ℚ) := by positivity
      have hfl : Rat.floor ((digitsVal ds : ℚ) + (digitsVal [a] : ℚ) /
          (10 : ℚ) ^ ([a] : List Char).length) = ((digitsVal ds : ℕ) : ℤ) := by
        show ⌊((digitsVal ds : ℚ) + (digitsVal [a] : ℚ) / (10 : ℚ) ^ ([a] : List Char).length)⌋ = _
        rw [Int.floor_eq_iff]
        constructor
        · push_cast
          simp only [List.length_cons, List.length_nil, zero_add, pow_one]
          linarith
        · push_cast
          simp only [List.length_cons, List.length_nil, zero_add, pow_one]
          linarith
      rw [hfl, Int.toNat_natCast]

theorem digit_not_alpha {c : Char} (h : isDigitCh c = true) :
    (isUpperCh c || isLowerCh c) = false := by
  simp only [isDigitCh, decide_eq_true_eq] at h
  simp only [isUpperCh, isLowerCh, Bool.or_eq_false_iff, decide_eq_false_iff_not]
  omega

theorem class_not_digit_all (mid : List Char) (h : ∀ c ∈ mid, isGradeClassCh c = true) :
    ∀ c ∈ mid, isDigitCh c = false :=
  fun c hc => class_not_digit (h c hc)

theorem grade_num_from_text_tail (lead ds fr : List Char)
    (hlead : ∀ c ∈ lead, isDigitCh c = false)
    (hds : ds ≠ []) (hlen : ds.length ≤ 2) (hdd : ∀ c ∈ ds, isDigitCh c = true)
    (hfr : fr = [] ∨ ∃ a, isDigitCh a = true ∧ fr = ['.', a]) :
    _grade_num_from_text (some (lead ++ (ds ++ fr))) = some (digitsVal ds) := by
  have hne : (lead ++ (ds ++ fr)).isEmpty = false := by
    rcases ds with _ | ⟨c0, d0⟩
    · exact absurd rfl hds
    · rcases lead with _ | ⟨l0, lt⟩ <;> rfl
  have hbuild : gradeDigitsMatchAt (ds ++ fr) = some (ds ++ fr) := by
    have h0 := gradeDigits_build ds fr [] hds hlen hdd hfr (fun c hc => by simp at hc)
    simpa using h0
  have hskip := searchWith_skip_head gradeDigitsMatchAt isDigitCh
    (fun c t hc => gradeDigitsMatchAt_head_fail c t hc) lead (ds ++ fr) hlead
  have hsearch := searchWith_of_match gradeDigitsMatchAt _ hbuild
  obtain ⟨q, hq, hv⟩ := grade_floor_value ds fr hds hdd hfr
  simp only [_grade_num_from_text, hne, Bool.false_eq_true, if_false, hskip, hsearch,
    hq, hv]

/-! ## Claim C6 — grade-pattern priority -/

/-- C6 counterexample: page text containing both a `PSA 10` token and a
`GRADE: MINT 9` label yields grade 9 (the labeled pattern), not 10 as the
claimed priority order (PSA-token first) would require. -/
theorem grade_priority_counterexample :
    extract_grade_num "PSA 10 GRADE: MINT 9".toList = some 9 ∧
    extract_grade_num "PSA 10 GRADE: MINT 9".toList ≠ some 10 := by
  have h : extract_grade_num "PSA 10 GRADE: MINT 9".toList = some 9 := by
    with_unfolding_all rfl
  refine ⟨h, ?_⟩
  rw [h]
  intro he
  injection he with he
  norm_num at he

/-- C6 amended: grade extraction tries the labeled
`GRADE: <descriptor> <number>` pattern FIRST and the explicit
`PSA <number>` token second; the first match wins, and the numeric grade
is the first 1-2 digit token of the matched grade text (there is no
separate page-level bare-number pattern). So when both tokens are present,
the `GRADE:` label's number is returned even if the `PSA <number>` differs;
the `PSA <number>` value is returned only when no `GRADE` label matches. -/
theorem grade_priority :
    (∀ (pre ws1 mid ds fr post : List Char),
      (∀ c ∈ pre, ¬ c = 'G') →
      (∀ c ∈ ws1, isPySpaceCh c = true) →
      (∀ c ∈ mid, isGradeClassCh c = true) →
      ds ≠ [] → ds.length ≤ 2 → (∀ c ∈ ds, isDigitCh c = true) →
      (fr = [] ∨ ∃ a, isDigitCh a = true ∧ fr = ['.', a]) →
      (∀ c, post.head? = some c → isDigitCh c = false ∧ ¬ c = '.') →
      extract_grade_num (pre ++ 'G' :: 'R' :: 'A' :: 'D' :: 'E' ::
        (ws1 ++ ':' :: (mid ++ ds ++ fr ++ post))) = some (digitsVal ds)) ∧
    (∀ (pre ws ds fr post : List Char),
      (∀ c ∈ pre ++ 'P' :: 'S' :: 'A' :: (ws ++ ds ++ fr ++ post), ¬ c = 'G') →
      (∀ c ∈ pre, ¬ c = 'P') →
      (∀ c ∈ ws, isPySpaceCh c = true) →
      ds ≠ [] → ds.length ≤ 2 → (∀ c ∈ ds, isDigitCh c = true) →
      (fr = [] ∨ ∃ a, isDigitCh a = true ∧ fr = ['.', a]) →
      (∀ c, post.head? = some c → isDigitCh c = false ∧ ¬ c = '.') →
      extract_grade_num (pre ++ 'P' :: 'S' :: 'A' :: (ws ++ ds ++ fr ++ post)) =
        some (digitsVal ds)) := by
  constructor
  · intro pre ws1 mid ds fr post hpre hws hmid hds hlen hdd hfr hpost
    have hmatch := gradeLabelMatchAt_build ws1 mid ds fr post hws hmid hds hlen hdd hfr hpost
    have hskip := searchWith_skip_head gradeLabelMatchAt (fun c => decide (c = 'G'))
      (fun c t hc => gradeLabelMatchAt_head_fail c t (by simpa using hc)) pre
      ('G' :: 'R' :: 'A' :: 'D' :: 'E' :: (ws1 ++ ':' :: (mid ++ ds ++ fr ++ post)))
      (fun c hc => by simpa using hpre c hc)
    have hsearch := searchWith_of_match gradeLabelMatchAt _ hmatch
    simp only [extract_grade_num, extract_grade_text, hskip, hsearch]
    have hmid2nd : ∀ c ∈ mid.dropWhile isPySpaceCh, isDigitCh c = false :=
      fun c hc => class_not_digit (hmid c ((List.dropWhile_sublist isPySpaceCh).subset hc))
    obtain ⟨lt, b2, heq, hnd⟩ := pyTitleGo_split (mid.dropWhile isPySpaceCh) hmid2nd
      (ds ++ fr) false
    have htail : pyTitleGo b2 (ds ++ fr) = ds ++ fr := by
      refine pyTitleGo_nonAlpha (ds ++ fr) ?_ b2
      intro c hc
      rcases List.mem_append.1 hc with hc | hc
      · exact digit_not_alpha (hdd c hc)
      · rcases hfr with h0 | ⟨a, ha, h0⟩
        · rw [h0] at hc
          simp at hc
        · rw [h0] at hc
          simp only [List.mem_cons, List.not_mem_nil, or_false] at hc
          rcases hc with rfl | rfl
          · rfl
          · exact digit_not_alpha ha
    have hteq : pyTitle (mid.dropWhile isPySpaceCh ++ ds ++ fr) = lt ++ (ds ++ fr) := by
      unfold pyTitle
      rw [List.append_assoc, heq, htail]
    rw [hteq]
    exact grade_num_from_text_tail lt ds fr hnd hds hlen hdd hfr
  · intro pre ws ds fr post hnoG hpre hws hds hlen hdd hfr hpost
    have hlabel := searchWith_none gradeLabelMatchAt (fun c => decide (c = 'G'))
      (fun c t hc => gradeLabelMatchAt_head_fail c t (by simpa using hc)) rfl
      (pre ++ 'P' :: 'S' :: 'A' :: (ws ++ ds ++ fr ++ post))
      (fun c hc => by simpa using hnoG c hc)
    have hmatch := psaGradeMatchAt_build ws ds fr post hws hds hlen hdd hfr hpost
    have hskip := searchWith_skip_head psaGradeMatchAt (fun c => decide (c = 'P'))
      (fun c t hc => psaGradeMatchAt_head_fail c t (by simpa using hc)) pre
      ('P' :: 'S' :: 'A' :: (ws ++ ds ++ fr ++ post))
      (fun c hc => by simpa using hpre c hc)
    have hsearch := searchWith_of_match psaGradeMatchAt _ hmatch
    simp only [extract_grade_num, extract_grade_text, hlabel, hskip, hsearch]
    have hlead : ∀ c ∈ ['P', 'S', 'A', ' '], isDigitCh c = false := by decide
    have h := grade_num_from_text_tail ['P', 'S', 'A', ' '] ds fr hlead hds hlen hdd hfr
    simpa using h

/-- C6 amended witness: the `GRADE:` label wins over a differing `PSA`
token, and a lone `PSA 8.5` token yields the truncated grade 8. -/
theorem grade_priority_witness :
    extract_grade_num "PSA 10 GRADE: MINT 9".toList = some (digitsVal ['9']) ∧
    extract_grade_num "X: PSA 8.5".toList = some (digitsVal ['8']) := by
  constructor
  · have h := grade_priority.1 "PSA 10 ".toList [] " MINT ".toList ['9'] [] []
      (by decide) (by decide) (by decide) (by decide) (by decide) (by decide)
      (Or.inl rfl) (fun c hc => by simp at hc)
    with_unfolding_all exact h
  · have h := grade_priority.2 "X: ".toList [' '] ['8'] ['.', '5'] []
      (by decide) (by decide) (by decide) (by decide) (by decide) (by decide)
      (Or.inr ⟨'5', by decide, rfl⟩) (fun c hc => by simp at hc)
    with_unfolding_all exact h
